import Mathlib

/-!
Shallow embedding of the Notion tool layer of `src/tools/local_mcp_server.py`
(`cuddly-octo-telegram`), together with theorems settling the frozen claims
about that file.

Modelling conventions, used throughout:

* Python strings are modelled as `List Char` (ASCII is all that the code
  compares against).  String literals are written `("...").toList`.
* Python floats (retry delays) are modelled as rationals `ℚ`.
* Remote HTTP endpoints are modelled as pure functions from the request data
  the code varies (property kind, value, attempt index, ...) to the response
  data the code inspects (status code, result count, headers).
* Recursions that are not structural in the Python (scanning loops,
  chunking loops) are given an explicit fuel argument, initialised with a
  bound (the input length) that makes exhaustion unreachable; this keeps
  every definition computable by kernel reduction.
-/

namespace LocalMcp

/-- The backtick character (written via its code point). -/
def btick : Char := Char.ofNat 96

/-- ASCII lower-casing of one character, modelling Python `str.lower` on the
ASCII subset that the source compares against. -/
def lowerChar (c : Char) : Char := c.toLower

/-- ASCII upper-casing of one character. -/
def upperChar (c : Char) : Char := c.toUpper

/-- Python `str.lower()` on a string, ASCII model. -/
def pyLower (s : List Char) : List Char := s.map lowerChar

/-- Auxiliary scan for `pyTitle`: `prevCased` records whether the previous
character was a cased (alphabetic) character. -/
def pyTitleAux : Bool → List Char → List Char
  | _, [] => []
  | prevCased, c :: r =>
      (if c.isAlpha then (if prevCased then lowerChar c else upperChar c) else c)
        :: pyTitleAux c.isAlpha r

/-- Python `str.title()` on a string (ASCII model): every alphabetic character
that follows a non-alphabetic (uncased) character is upper-cased, every other
alphabetic character is lower-cased. -/
def pyTitle (s : List Char) : List Char := pyTitleAux false s

/-- Whitespace test for the ASCII whitespace characters that matter to the
source (`\s` in its regexes; `str.strip()`). -/
def isWS (c : Char) : Bool := c = ' ' ∨ c = '\t' ∨ c = '\n' ∨ c = '\r'

/-- `str.strip()`: drop leading and trailing whitespace. -/
def pyStrip (s : List Char) : List Char :=
  (s.dropWhile isWS).reverse.dropWhile isWS |>.reverse

/-- `_alt_values` from `local_mcp_server.py` (defined identically at
lines 240-253 inside `notion_query_eligible` and at lines 348-359 inside
`notion_update_status`): capitalization variants of a status value.

The Python builds a `set` containing `val` itself plus the variants and
returns `list(set)`; since a Python set's iteration order is unspecified we
model the result as `List.dedup` of the insertion sequence (`val` first,
then the branch's variants); the element set is exactly the source's. -/
def alt_values (val : List Char) : List (List Char) :=
  (val ::
    (if pyLower val = ("not started").toList then
        [("Not started").toList, ("Not Started").toList]
      else if pyLower val = ("in progress").toList then
        [("In progress").toList, ("In Progress").toList]
      else if pyLower val = ("done").toList then
        [("Done").toList]
      else
        [pyTitle val])).dedup

theorem mem_alt_values_iff (val w : List Char) :
    w ∈ alt_values val ↔
      w ∈ val ::
        (if pyLower val = ("not started").toList then
            [("Not started").toList, ("Not Started").toList]
          else if pyLower val = ("in progress").toList then
            [("In progress").toList, ("In Progress").toList]
          else if pyLower val = ("done").toList then
            [("Done").toList]
          else
            [pyTitle val]) := by
  unfold alt_values
  exact List.mem_dedup

/-- C2: for every status value whose lowercased form is "not started",
"in progress" or "done" (under any input capitalization), `_alt_values`
produces both the lowercase-initial form and the title-case form of the
phrase (for "done" the two coincide in "Done"); for any other value the
title-cased form is the sole variant added besides the value itself. -/
theorem claim_C2_alt_values :
    (∀ val : List Char, pyLower val = ("not started").toList →
        ("Not started").toList ∈ alt_values val ∧
        ("Not Started").toList ∈ alt_values val) ∧
    (∀ val : List Char, pyLower val = ("in progress").toList →
        ("In progress").toList ∈ alt_values val ∧
        ("In Progress").toList ∈ alt_values val) ∧
    (∀ val : List Char, pyLower val = ("done").toList →
        ("Done").toList ∈ alt_values val) ∧
    (∀ val : List Char,
        pyLower val ≠ ("not started").toList →
        pyLower val ≠ ("in progress").toList →
        pyLower val ≠ ("done").toList →
        pyTitle val ∈ alt_values val ∧
        ∀ w ∈ alt_values val, w = val ∨ w = pyTitle val) := by
  refine ⟨fun val h => ?_, fun val h => ?_, fun val h => ?_, fun val h1 h2 h3 => ?_⟩
  · constructor <;> · rw [mem_alt_values_iff, h]; simp
  · constructor
    all_goals
      rw [mem_alt_values_iff, h]
      have : pyLower val ≠ ("not started").toList := by rw [h]; decide
      simp [this]
  · rw [mem_alt_values_iff, h]
    have h1 : pyLower val ≠ ("not started").toList := by rw [h]; decide
    have h2 : pyLower val ≠ ("in progress").toList := by rw [h]; decide
    simp [h1, h2]
  · constructor
    · rw [mem_alt_values_iff, if_neg h1, if_neg h2, if_neg h3]; simp
    · intro w hw
      rw [mem_alt_values_iff, if_neg h1, if_neg h2, if_neg h3] at hw
      simpa using hw

theorem claim_C2_alt_values_witness :
    (("Not started").toList ∈ alt_values (("NOT startED").toList) ∧
     ("Not Started").toList ∈ alt_values (("NOT startED").toList)) ∧
    (("In progress").toList ∈ alt_values (("in ProgRess").toList) ∧
     ("In Progress").toList ∈ alt_values (("in ProgRess").toList)) ∧
    ("Done").toList ∈ alt_values (("dOnE").toList) ∧
    pyTitle (("custom val").toList) ∈ alt_values (("custom val").toList) :=
  ⟨claim_C2_alt_values.1 _ (by decide),
   claim_C2_alt_values.2.1 _ (by decide),
   claim_C2_alt_values.2.2.1 _ (by decide),
   (claim_C2_alt_values.2.2.2 _ (by decide) (by decide) (by decide)).1⟩

/-! ## `_request_with_retry` (lines 34-78)

The HTTP layer is modelled by a pure function `resps : Nat → HttpResponse`
giving the response to the `i`-th request issued by the loop, and a pure
function `rand : Nat → ℚ` giving the value drawn by `random.random()` on the
`i`-th attempt (a value in `[0,1]`).  Delays are rationals. -/

/-- The parts of an `httpx.Response` that `_request_with_retry` inspects:
the status code and the `Retry-After` header (`none` when the header is
absent; `some []` models a present but empty header value). -/
structure HttpResponse where
  status : Nat
  retryAfter : Option (List Char)
deriving DecidableEq

/-- Digit-list value, e.g. `['4','2'] ↦ 42`. -/
def digitsVal (ds : List Char) : Nat :=
  ds.foldl (fun a c => 10 * a + (c.toNat - 48)) 0

/-- Digits of a parsed decimal literal: sign, integer digits, fractional
digits, exponent sign and exponent digits (`ed = none` when no exponent). -/
structure FloatLit where
  neg : Bool
  ip : List Char
  fp : List Char
  eneg : Bool
  ed : Option (List Char)
deriving DecidableEq

/-- Parse the decimal-literal subset
`[ws] [sign] digits [. digits] [(e|E) [sign] digits] [ws]`
accepted by Python `float(s)` (the forms a `Retry-After` header can
meaningfully take); returns `none` when `s` is not of this shape, modelling
the `ValueError` the source catches.  Special spellings (`inf`, `nan`,
underscore separators) are outside the modelled subset and map to `none`. -/
def parseFloatLit (s : List Char) : Option FloatLit :=
  let t0 := pyStrip s
  let (neg, t1) : Bool × List Char :=
    match t0 with
    | c :: r => if c = '-' then (true, r) else if c = '+' then (false, r) else (false, c :: r)
    | [] => (false, [])
  let ip := t1.takeWhile Char.isDigit
  let t2 := t1.dropWhile Char.isDigit
  let (fp, t3) : List Char × List Char :=
    match t2 with
    | c :: r => if c = '.' then (r.takeWhile Char.isDigit, r.dropWhile Char.isDigit) else ([], c :: r)
    | [] => ([], [])
  let (hasExp, eneg, ed, t4) : Bool × Bool × List Char × List Char :=
    match t3 with
    | c :: r =>
        if c = 'e' ∨ c = 'E' then
          let (es, r2) : Bool × List Char :=
            match r with
            | d :: r2 => if d = '-' then (true, r2) else if d = '+' then (false, r2) else (false, d :: r2)
            | [] => (false, [])
          (true, es, r2.takeWhile Char.isDigit, r2.dropWhile Char.isDigit)
        else (false, false, [], c :: r)
    | [] => (false, false, [], [])
  if (ip ≠ [] ∨ fp ≠ []) ∧ (hasExp → ed ≠ []) ∧ t4 = [] then
    some ⟨neg, ip, fp, eneg, if hasExp then some ed else none⟩
  else none

/-- Numeric value of a parsed decimal literal, as a rational. -/
def floatLitVal (f : FloatLit) : ℚ :=
  let mant : ℚ :=
    (if f.neg then -1 else 1) *
      ((digitsVal f.ip : ℚ) + (digitsVal f.fp : ℚ) / (10 : ℚ) ^ f.fp.length)
  match f.ed with
  | none => mant
  | some ds => if f.eneg then mant / (10 : ℚ) ^ digitsVal ds else mant * (10 : ℚ) ^ digitsVal ds

/-- Model of Python `float(s)`, as parse-then-evaluate. -/
def pyFloat? (s : List Char) : Option ℚ :=
  (parseFloatLit s).map floatLitVal

/-- The exponential-backoff-with-jitter delay of lines 75-76:
`min(max_delay, base_delay * 2 ** attempt) * (0.8 + 0.4 * random.random())`. -/
def expDelay (base maxD : ℚ) (attempt : Nat) (r : ℚ) : ℚ :=
  min maxD (base * 2 ^ attempt) * (4/5 + 2/5 * r)

/-- The body of `_request_with_retry`'s `while True` loop (lines 62-78),
with `rem` the number of retries still allowed (`rem = max_retries -
attempt`, so `rem = 0` exactly when `attempt >= max_retries`).  Returns the
response handed back to the caller, the list of request (attempt) indices
issued, and the list of sleeps performed.  The `Retry-After` branch follows
the source's `if retry_after:` truthiness test, under which an empty header
value falls through to the exponential branch. -/
def request_with_retry_aux (resps : Nat → HttpResponse) (rand : Nat → ℚ)
    (base maxD : ℚ) : Nat → Nat → HttpResponse × List Nat × List ℚ
  | attempt, 0 => (resps attempt, [attempt], [])
  | attempt, rem + 1 =>
      let resp := resps attempt
      if resp.status ≠ 429 then (resp, [attempt], [])
      else
        let delay : ℚ :=
          match resp.retryAfter with
          | some ra =>
              if ra = [] then expDelay base maxD attempt (rand attempt)
              else ((pyFloat? ra).getD base)
          | none => expDelay base maxD attempt (rand attempt)
        let rest := request_with_retry_aux resps rand base maxD (attempt + 1) rem
        (rest.1, attempt :: rest.2.1, delay :: rest.2.2)

/-- Retry tuning parameters (env-default values in the source:
`max_retries = 5`, `base_delay = 0.6`, `max_delay = 8.0`). -/
structure RetryPolicy where
  maxRetries : Nat
  baseDelay : ℚ
  maxDelay : ℚ

/-- `_request_with_retry` itself: run the loop from `attempt = 0`. -/
def request_with_retry (resps : Nat → HttpResponse) (rand : Nat → ℚ)
    (p : RetryPolicy) : HttpResponse × List Nat × List ℚ :=
  request_with_retry_aux resps rand p.baseDelay p.maxDelay 0 p.maxRetries

/-- Per-attempt sleep duration of `_request_with_retry`, factored out of the
loop body for use in theorem statements: a present, non-empty `Retry-After`
header is parsed as seconds (falling back to `base_delay` when unparseable);
an absent — or present but empty, by the source's `if retry_after:`
truthiness test — header yields the capped exponential formula with jitter. -/
def amended_sleep (base maxD : ℚ) (attempt : Nat) (resp : HttpResponse) (r : ℚ) : ℚ :=
  match resp.retryAfter with
  | some ra =>
      if ra = [] then expDelay base maxD attempt r
      else ((pyFloat? ra).getD base)
  | none => expDelay base maxD attempt r

/-- The sleep duration claimed by C3, following the claim's words: any
present `Retry-After` header is parsed as seconds with fallback
`base_delay`; only an absent header yields the exponential formula. -/
def claim_C3_sleep (base maxD : ℚ) (attempt : Nat) (resp : HttpResponse) (r : ℚ) : ℚ :=
  match resp.retryAfter with
  | some ra => ((pyFloat? ra).getD base)
  | none => expDelay base maxD attempt r

theorem request_aux_attempts_ne_nil (resps : Nat → HttpResponse) (rand : Nat → ℚ)
    (base maxD : ℚ) : ∀ rem a,
    (request_with_retry_aux resps rand base maxD a rem).2.1 ≠ [] := by
  intro rem a
  cases rem with
  | zero => simp [request_with_retry_aux]
  | succ rem =>
      by_cases h : (resps a).status ≠ 429 <;>
        simp [request_with_retry_aux, h]

theorem request_aux_sleeps (resps : Nat → HttpResponse) (rand : Nat → ℚ)
    (base maxD : ℚ) : ∀ rem a,
    (request_with_retry_aux resps rand base maxD a rem).2.2 =
      ((request_with_retry_aux resps rand base maxD a rem).2.1.dropLast).map
        (fun i => amended_sleep base maxD i (resps i) (rand i)) := by
  intro rem
  induction rem with
  | zero => intro a; simp [request_with_retry_aux]
  | succ rem ih =>
      intro a
      by_cases h : (resps a).status ≠ 429
      · simp [request_with_retry_aux, h]
      · have hne := request_aux_attempts_ne_nil resps rand base maxD rem (a + 1)
        simp only [request_with_retry_aux, if_neg h]
        rw [List.dropLast_cons_of_ne_nil hne, List.map_cons, ← ih (a + 1)]
        simp [amended_sleep]

theorem cons_map_range {α : Type} (g : Nat → α) (a n : Nat) :
    g a :: (List.range n).map (fun i => g (a + 1 + i)) =
      (List.range (n + 1)).map (fun i => g (a + i)) := by
  rw [List.range_succ_eq_map, List.map_cons, List.map_map]
  refine congrArg₂ List.cons (by rw [Nat.add_zero]) ?_
  refine (List.map_congr_left (fun i _ => ?_)).symm
  simp only [Function.comp]
  rw [show a + (i + 1) = a + 1 + i by omega]

theorem request_aux_stops (resps : Nat → HttpResponse) (rand : Nat → ℚ)
    (base maxD : ℚ) : ∀ k a rem, k ≤ rem →
    (∀ i, i < k → (resps (a + i)).status = 429) →
    (resps (a + k)).status ≠ 429 →
    request_with_retry_aux resps rand base maxD a rem =
      (resps (a + k), (List.range (k + 1)).map (a + ·),
        (List.range k).map (fun i => amended_sleep base maxD (a + i) (resps (a + i)) (rand (a + i)))) := by
  intro k
  induction k with
  | zero =>
      intro a rem _ _ hstop
      simp only [Nat.add_zero] at hstop
      have h1 : (List.range 1).map (a + ·) = [a] := by
        rw [List.range_succ_eq_map]; simp
      cases rem with
      | zero => simp [request_with_retry_aux, h1]
      | succ rem => simp [request_with_retry_aux, hstop, h1]
  | succ k ih =>
      intro a rem hle h429 hstop
      cases rem with
      | zero => omega
      | succ rem =>
          have ha : (resps a).status = 429 := by simpa using h429 0 (Nat.succ_pos k)
          have hcond : ¬ ((resps a).status ≠ 429) := by simp [ha]
          have hrec := ih (a + 1) rem (by omega)
            (fun i hi => by
              have := h429 (i + 1) (by omega)
              rw [show a + 1 + i = a + (i + 1) by omega]; exact this)
            (by rw [show a + 1 + k = a + (k + 1) by omega]; exact hstop)
          simp only [request_with_retry_aux, if_neg hcond, hrec, Prod.mk.injEq]
          refine ⟨by rw [show a + 1 + k = a + (k + 1) by omega], ?_, ?_⟩
          · exact cons_map_range (fun x => x) a (k + 1)
          · exact cons_map_range
              (fun i => amended_sleep base maxD i (resps i) (rand i)) a k

theorem request_aux_all429 (resps : Nat → HttpResponse) (rand : Nat → ℚ)
    (base maxD : ℚ) : ∀ rem a,
    (∀ i, i ≤ rem → (resps (a + i)).status = 429) →
    request_with_retry_aux resps rand base maxD a rem =
      (resps (a + rem), (List.range (rem + 1)).map (a + ·),
        (List.range rem).map (fun i => amended_sleep base maxD (a + i) (resps (a + i)) (rand (a + i)))) := by
  intro rem
  induction rem with
  | zero =>
      intro a _
      have h1 : (List.range 1).map (a + ·) = [a] := by
        rw [List.range_succ_eq_map]; simp
      simp [request_with_retry_aux, h1]
  | succ rem ih =>
      intro a h429
      have ha : (resps a).status = 429 := by simpa using h429 0 (Nat.zero_le _)
      have hcond : ¬ ((resps a).status ≠ 429) := by simp [ha]
      have hrec := ih (a + 1) (fun i hi => by
        have := h429 (i + 1) (by omega)
        rw [show a + 1 + i = a + (i + 1) by omega]; exact this)
      simp only [request_with_retry_aux, if_neg hcond, hrec, Prod.mk.injEq]
      refine ⟨by rw [show a + 1 + rem = a + (rem + 1) by omega], ?_, ?_⟩
      · exact cons_map_range (fun x => x) a (rem + 1)
      · exact cons_map_range
          (fun i => amended_sleep base maxD i (resps i) (rand i)) a rem

/-- Response sequence: one 429 carrying an empty `Retry-After` value, then
success. -/
def respsEmptyRA : Nat → HttpResponse := fun i =>
  if i = 0 then ⟨429, some []⟩ else ⟨200, none⟩

/-- Response sequence of the spec's scenario: one 429 with `Retry-After: 2`,
then success. -/
def respsRA2 : Nat → HttpResponse := fun i =>
  if i = 0 then ⟨429, some (("2").toList)⟩ else ⟨200, none⟩

theorem pyFloat_two : pyFloat? (("2").toList) = some 2 := by
  have hp : parseFloatLit (("2").toList) = some ⟨false, ('2' :: []), [], false, none⟩ := by
    decide
  have h2 : digitsVal ('2' :: []) = 2 := by decide
  have h0 : digitsVal ([] : List Char) = 0 := by decide
  rw [pyFloat?, hp]
  norm_num [floatLitVal, h2, h0]

/-- C3, counterexample: a 429 response that carries a `Retry-After` header
with an empty value.  The claim (sleep = header parsed as seconds, falling
back to `base_delay` when it does not parse, no exponential formula and no
jitter) predicts a sleep of `base_delay = 1`; the code's `if retry_after:`
truthiness test sends the empty string to the exponential-with-jitter branch
instead, sleeping `min(8, 1·2^0)·(0.8 + 0.4·0) = 4/5`. -/
theorem claim_C3_counterexample :
    (request_with_retry respsEmptyRA (fun _ => 0) ⟨5, 1, 8⟩).2.2 = [4/5] ∧
    claim_C3_sleep 1 8 0 (respsEmptyRA 0) 0 = 1 ∧
    (4/5 : ℚ) ≠ 1 := by
  refine ⟨?_, rfl, by norm_num⟩
  have htr := request_aux_stops respsEmptyRA (fun _ => 0) 1 8 1 0 5 (by omega)
    (fun i hi => by
      have h0 : i = 0 := by omega
      subst h0; rfl)
    (by decide)
  have hrw : request_with_retry respsEmptyRA (fun _ => 0) ⟨5, 1, 8⟩ =
      request_with_retry_aux respsEmptyRA (fun _ => 0) 1 8 0 5 := rfl
  rw [hrw, htr]
  have h1 : (List.range 1).map
      (fun i => amended_sleep 1 8 (0 + i) (respsEmptyRA (0 + i)) ((fun _ => (0:ℚ)) (0 + i))) =
      [amended_sleep 1 8 0 (respsEmptyRA 0) 0] := by
    rw [List.range_succ_eq_map]; simp
  rw [h1]
  norm_num [amended_sleep, respsEmptyRA, expDelay]

/-- C3 (amended): the sleep trace of `_request_with_retry` is, attempt by
attempt, exactly `amended_sleep`: a present, **non-empty** retry-after
header is parsed as seconds (fallback `base_delay` when it does not parse),
with no exponential formula and no jitter; an absent — or present but
empty — header yields `min(max_delay, base_delay·2^attempt)` multiplied by
the jitter factor `0.8 + 0.4·r`, which lies in `[0.8, 1.2]` for
`r ∈ [0, 1]`. -/
theorem claim_C3_retry_sleep :
    (∀ (resps : Nat → HttpResponse) (rand : Nat → ℚ) (p : RetryPolicy),
      (request_with_retry resps rand p).2.2 =
        ((request_with_retry resps rand p).2.1.dropLast).map
          (fun i => amended_sleep p.baseDelay p.maxDelay i (resps i) (rand i))) ∧
    (∀ (base maxD : ℚ) (attempt : Nat) (r : ℚ),
      0 ≤ base → 0 ≤ maxD → 0 ≤ r → r ≤ 1 →
      4/5 * min maxD (base * 2 ^ attempt) ≤ expDelay base maxD attempt r ∧
      expDelay base maxD attempt r ≤ 6/5 * min maxD (base * 2 ^ attempt)) := by
  constructor
  · intro resps rand p
    exact request_aux_sleeps resps rand p.baseDelay p.maxDelay p.maxRetries 0
  · intro base maxD attempt r hb hm h0 h1
    have hmin : 0 ≤ min maxD (base * 2 ^ attempt) :=
      le_min hm (by positivity)
    constructor
    · calc 4/5 * min maxD (base * 2 ^ attempt)
          = min maxD (base * 2 ^ attempt) * (4/5) := by ring
        _ ≤ min maxD (base * 2 ^ attempt) * (4/5 + 2/5 * r) :=
            mul_le_mul_of_nonneg_left (by nlinarith) hmin
        _ = expDelay base maxD attempt r := rfl
    · calc expDelay base maxD attempt r
          = min maxD (base * 2 ^ attempt) * (4/5 + 2/5 * r) := rfl
        _ ≤ min maxD (base * 2 ^ attempt) * (6/5) :=
            mul_le_mul_of_nonneg_left (by nlinarith) hmin
        _ = 6/5 * min maxD (base * 2 ^ attempt) := by ring

theorem claim_C3_retry_sleep_witness :
    (request_with_retry respsRA2 (fun _ => 0) ⟨5, 3/5, 8⟩).2.2 = [2] ∧
    4/5 * min (8:ℚ) (3/5 * 2 ^ 0) ≤ expDelay (3/5) 8 0 (1/2) ∧
    expDelay (3/5) 8 0 (1/2) ≤ 6/5 * min (8:ℚ) (3/5 * 2 ^ 0) := by
  have hb := claim_C3_retry_sleep.2 (3/5) 8 0 (1/2)
    (by norm_num) (by norm_num) (by norm_num) (by norm_num)
  refine ⟨?_, hb.1, hb.2⟩
  have heq := claim_C3_retry_sleep.1 respsRA2 (fun _ => 0) ⟨5, 3/5, 8⟩
  have htr := request_aux_stops respsRA2 (fun _ => 0) (3/5) 8 1 0 5 (by omega)
    (fun i hi => by
      have h0 : i = 0 := by omega
      subst h0; rfl)
    (by decide)
  have hrw : request_with_retry respsRA2 (fun _ => 0) ⟨5, 3/5, 8⟩ =
      request_with_retry_aux respsRA2 (fun _ => 0) (3/5) 8 0 5 := rfl
  rw [heq, hrw, htr]
  have hat : ((List.range 2).map (0 + ·)).dropLast = [0] := by
    rw [List.range_succ_eq_map, List.range_succ_eq_map]; simp
  rw [hat]
  simp only [List.map_cons, List.map_nil]
  rw [show amended_sleep (3/5) 8 0 (respsRA2 0) 0 = (pyFloat? (("2").toList)).getD (3/5) from rfl,
    pyFloat_two]
  rfl

/-- C4: `_request_with_retry` returns the first response whose status is not
429 (non-429 statuses, success or error, are never retried), issuing
requests `0..k` when the first non-429 response is the `k`-th one with
`k ≤ max_retries`; when every response up to `max_retries` is a 429 it
issues exactly `max_retries + 1` requests (`max_retries` retries) and
returns the last 429 response. -/
theorem claim_C4_retry_first_non429 :
    (∀ (resps : Nat → HttpResponse) (rand : Nat → ℚ) (p : RetryPolicy) (k : Nat),
      k ≤ p.maxRetries →
      (∀ i, i < k → (resps i).status = 429) →
      (resps k).status ≠ 429 →
      (request_with_retry resps rand p).1 = resps k ∧
      (request_with_retry resps rand p).2.1 = List.range (k + 1) ∧
      (request_with_retry resps rand p).2.2.length = k) ∧
    (∀ (resps : Nat → HttpResponse) (rand : Nat → ℚ) (p : RetryPolicy),
      (∀ i, i ≤ p.maxRetries → (resps i).status = 429) →
      (request_with_retry resps rand p).1 = resps p.maxRetries ∧
      (request_with_retry resps rand p).2.1 = List.range (p.maxRetries + 1) ∧
      (request_with_retry resps rand p).2.2.length = p.maxRetries) := by
  have hmap : ∀ n : Nat, (List.range n).map (0 + ·) = List.range n := by
    intro n
    refine (List.map_congr_left (fun i _ => by simp)).trans (List.map_id _)
  constructor
  · intro resps rand p k hk h429 hstop
    have h := request_aux_stops resps rand p.baseDelay p.maxDelay k 0 p.maxRetries hk
      (fun i hi => by rw [Nat.zero_add]; exact h429 i hi)
      (by rw [Nat.zero_add]; exact hstop)
    have hrw : request_with_retry resps rand p =
        request_with_retry_aux resps rand p.baseDelay p.maxDelay 0 p.maxRetries := rfl
    rw [hrw, h]
    refine ⟨by simp, by simp [hmap (k + 1)], by simp⟩
  · intro resps rand p h429
    have h := request_aux_all429 resps rand p.baseDelay p.maxDelay p.maxRetries 0
      (fun i hi => by rw [Nat.zero_add]; exact h429 i hi)
    have hrw : request_with_retry resps rand p =
        request_with_retry_aux resps rand p.baseDelay p.maxDelay 0 p.maxRetries := rfl
    rw [hrw, h]
    refine ⟨by simp, by simp [hmap (p.maxRetries + 1)], by simp⟩

/-- All-429 response sequence. -/
def respsAll429 : Nat → HttpResponse := fun _ => ⟨429, none⟩

theorem claim_C4_retry_first_non429_witness :
    ((request_with_retry respsRA2 (fun _ => 0) ⟨5, 3/5, 8⟩).1 = respsRA2 1 ∧
     (request_with_retry respsRA2 (fun _ => 0) ⟨5, 3/5, 8⟩).2.1 = List.range 2 ∧
     (request_with_retry respsRA2 (fun _ => 0) ⟨5, 3/5, 8⟩).2.2.length = 1) ∧
    ((request_with_retry respsAll429 (fun _ => 0) ⟨3, 3/5, 8⟩).1 = respsAll429 3 ∧
     (request_with_retry respsAll429 (fun _ => 0) ⟨3, 3/5, 8⟩).2.1 = List.range 4 ∧
     (request_with_retry respsAll429 (fun _ => 0) ⟨3, 3/5, 8⟩).2.2.length = 3) :=
  ⟨claim_C4_retry_first_non429.1 respsRA2 (fun _ => 0) ⟨5, 3/5, 8⟩ 1 (by decide)
      (fun i hi => by
        have h0 : i = 0 := by omega
        subst h0; rfl)
      (by decide),
   claim_C4_retry_first_non429.2 respsAll429 (fun _ => 0) ⟨3, 3/5, 8⟩
      (fun i _ => rfl)⟩

/-! ## Property-schema probing
`notion_query_eligible` (lines 208-324) and `notion_update_status`
(lines 327-410).  A query remote is a function
`R : PKind → List Char → Nat × Nat` giving, for a filter key and a status
value, the response status code and the length of its `results` list
(`data.get("results")` truthiness is emptiness of that list); an update
remote is `R : PKind → List Char → Nat` giving the response status code.
Each probing function returns the list of `(filter key, value)` attempts
it issues, in order, together with the data of the last response. -/

/-- A Notion property filter key: `"select"` or `"status"`. -/
inductive PKind
  | select
  | status
deriving DecidableEq

/-- `fallback_key`: the other member of `{select, status}` (lines 277, 373). -/
def fallbackOf : PKind → PKind
  | .select => .status
  | .status => .select

/-- `preferred_key = "select" if (property_type or "select").lower() ==
"select" else "status"` (lines 276, 372). -/
def preferredOf (property_type : List Char) : PKind :=
  if property_type = [] then .select
  else if pyLower property_type = ("select").toList then .select
  else .status

/-- Success test of one update attempt: response status 200. -/
def updateOk (R : PKind → List Char → Nat) (a : PKind × List Char) : Bool :=
  decide (R a.1 a.2 = 200)

/-- Success test of one query attempt: response status 200 and a non-empty
`results` list. -/
def queryOk (R : PKind → List Char → Nat × Nat) (a : PKind × List Char) : Bool :=
  decide ((R a.1 a.2).1 = 200 ∧ (R a.1 a.2).2 ≠ 0)

/-- The `for v in _alt_values(status_value): ... if resp.status_code == 200:
break` loop of `notion_update_status` (lines 392-399 and 401-408): attempts
made and last response status, `prev` being the status in hand when the
loop starts. -/
def update_try_loop (R : PKind → List Char → Nat) (k : PKind) :
    List (List Char) → Nat → List (PKind × List Char) × Nat
  | [], prev => ([], prev)
  | v :: rest, _prev =>
      let st := R k v
      if st = 200 then ([(k, v)], st)
      else
        let rec' := update_try_loop R k rest st
        ((k, v) :: rec'.1, rec'.2)

/-- The `for v in _alt_values(status_value): ... if status_code == 200 and
data.get("results"): break` loop of `notion_query_eligible` (lines 286-289
and 291-294). -/
def query_try_loop (R : PKind → List Char → Nat × Nat) (k : PKind) :
    List (List Char) → Nat × Nat → List (PKind × List Char) × (Nat × Nat)
  | [], prev => ([], prev)
  | v :: rest, _prev =>
      let r := R k v
      if r.1 = 200 ∧ r.2 ≠ 0 then ([(k, v)], r)
      else
        let rec' := query_try_loop R k rest r
        ((k, v) :: rec'.1, rec'.2)

/-- The attempt sequence of `notion_update_status` (lines 371-408):
preferred key with the exact value; on non-200, fallback key with the exact
value; on non-200, every variant on the preferred key (break at 200); if
still non-200, every variant on the fallback key (break at 200). -/
def notion_update_status_attempts (R : PKind → List Char → Nat)
    (property_type v : List Char) : List (PKind × List Char) × Nat :=
  let pref := preferredOf property_type
  let fb := fallbackOf pref
  let r1 := R pref v
  if r1 ≠ 200 then
    let r2 := R fb v
    if r2 ≠ 200 then
      let l1 := update_try_loop R pref (alt_values v) r2
      if l1.2 ≠ 200 then
        let l2 := update_try_loop R fb (alt_values v) l1.2
        ((pref, v) :: (fb, v) :: (l1.1 ++ l2.1), l2.2)
      else ((pref, v) :: (fb, v) :: l1.1, l1.2)
    else ([(pref, v), (fb, v)], r2)
  else ([(pref, v)], r1)

/-- Variant-probing stage of `notion_query_eligible` (lines 284-294): runs
only when the response in hand (`r0`, after the exact-value attempts `as0`)
is a 200 with an empty `results` list; the preferred-key variant loop, then
— only if the response in hand is again an empty 200 — the fallback-key
variant loop. -/
def query_variant_stage (R : PKind → List Char → Nat × Nat) (pref fb : PKind)
    (v : List Char) (as0 : List (PKind × List Char)) (r0 : Nat × Nat) :
    List (PKind × List Char) × (Nat × Nat) :=
  if r0.1 = 200 ∧ r0.2 = 0 then
    let l1 := query_try_loop R pref (alt_values v) r0
    if l1.2.1 = 200 ∧ l1.2.2 = 0 then
      let l2 := query_try_loop R fb (alt_values v) l1.2
      (as0 ++ l1.1 ++ l2.1, l2.2)
    else (as0 ++ l1.1, l1.2)
  else (as0, r0)

/-- The attempt sequence of `notion_query_eligible` (lines 275-294):
preferred key with the exact value; the fallback key with the exact value
only when that returned a non-200 status; then the variant stage. -/
def notion_query_eligible_attempts (R : PKind → List Char → Nat × Nat)
    (property_type v : List Char) : List (PKind × List Char) × (Nat × Nat) :=
  let pref := preferredOf property_type
  let fb := fallbackOf pref
  let r1 := R pref v
  if r1.1 ≠ 200 then
    query_variant_stage R pref fb v [(pref, v), (fb, v)] (R fb v)
  else
    query_variant_stage R pref fb v [(pref, v)] r1

/-- Truncate an attempt list at (and including) its first successful
attempt; an attempt sequence "stops at the first success". -/
def stopAtFirst {α : Type} (good : α → Bool) : List α → List α
  | [] => []
  | a :: r => if good a then [a] else a :: stopAtFirst good r

/-- The attempt order asserted by C1, for updates: preferred/value,
fallback/value, then for each variant the preferred kind followed by the
fallback kind, stopping at the first success. -/
def claim_C1_update_order (R : PKind → List Char → Nat)
    (property_type v : List Char) : List (PKind × List Char) :=
  let pref := preferredOf property_type
  let fb := fallbackOf pref
  stopAtFirst (updateOk R)
    ((pref, v) :: (fb, v) ::
      (alt_values v).flatMap (fun w => [(pref, w), (fb, w)]))

/-- The update attempt order actually implemented (amended claim): the
exact value on the preferred then the fallback kind, then all variants on
the preferred kind, then all variants on the fallback kind, stopping at
the first success. -/
def amended_C1_update_order (R : PKind → List Char → Nat)
    (property_type v : List Char) : List (PKind × List Char) :=
  let pref := preferredOf property_type
  let fb := fallbackOf pref
  stopAtFirst (updateOk R)
    ([(pref, v), (fb, v)] ++
      (alt_values v).map (fun w => (pref, w)) ++
      (alt_values v).map (fun w => (fb, w)))

/-- The query attempt order actually implemented (amended claim), in
stop-at-first-success vocabulary: the preferred kind with the exact value;
the fallback kind with the exact value only if the former's status was not
200; then, only if the response in hand is a 200 with no rows, all variants
on the preferred kind stopping at a 200-with-rows, and after that — only
if the last response is again a 200 with no rows — all variants on the
fallback kind. -/
def amended_C1_query_order (R : PKind → List Char → Nat × Nat)
    (property_type v : List Char) : List (PKind × List Char) :=
  let pref := preferredOf property_type
  let fb := fallbackOf pref
  let head := if (R pref v).1 = 200 then [(pref, v)] else [(pref, v), (fb, v)]
  let rh := if (R pref v).1 = 200 then R pref v else R fb v
  if rh.1 = 200 ∧ rh.2 = 0 then
    let pl := stopAtFirst (queryOk R) ((alt_values v).map (fun w => (pref, w)))
    let ra := match pl.getLast? with
              | none => rh
              | some a => R a.1 a.2
    if ra.1 = 200 ∧ ra.2 = 0 then
      head ++ pl ++ stopAtFirst (queryOk R) ((alt_values v).map (fun w => (fb, w)))
    else head ++ pl
  else head

theorem stopAtFirst_all_neg {α : Type} (g : α → Bool) :
    ∀ l, (∀ a ∈ l, g a = false) → stopAtFirst g l = l := by
  intro l
  induction l with
  | nil => intro _; rfl
  | cons a r ih =>
      intro h
      have ha := h a (List.mem_cons_self a r)
      simp only [stopAtFirst, ha, Bool.false_eq_true, if_false, ite_false]
      rw [ih (fun b hb => h b (List.mem_cons_of_mem a hb))]

theorem stopAtFirst_append_all_neg {α : Type} (g : α → Bool) :
    ∀ l1 l2, (∀ a ∈ l1, g a = false) →
      stopAtFirst g (l1 ++ l2) = l1 ++ stopAtFirst g l2 := by
  intro l1
  induction l1 with
  | nil => intro l2 _; rfl
  | cons a r ih =>
      intro l2 h
      have ha := h a (List.mem_cons_self a r)
      simp only [List.cons_append, stopAtFirst, ha, Bool.false_eq_true, if_false,
        ite_false, List.append_eq]
      rw [ih l2 (fun b hb => h b (List.mem_cons_of_mem a hb))]

theorem stopAtFirst_append_found {α : Type} (g : α → Bool) :
    ∀ l1 l2, (∃ a ∈ l1, g a = true) →
      stopAtFirst g (l1 ++ l2) = stopAtFirst g l1 := by
  intro l1
  induction l1 with
  | nil => intro l2 h; simp at h
  | cons a r ih =>
      intro l2 h
      by_cases ha : g a = true
      · simp [stopAtFirst, ha]
      · have h' : ∃ b ∈ r, g b = true := by
          rcases h with ⟨b, hb, hgb⟩
          rcases List.mem_cons.mp hb with rfl | hb'
          · exact absurd hgb ha
          · exact ⟨b, hb', hgb⟩
        simp only [List.cons_append, stopAtFirst, ha, if_false, ite_false,
          List.append_eq]
        rw [ih l2 h']

theorem update_try_loop_fst (R : PKind → List Char → Nat) (k : PKind) :
    ∀ vs prev, (update_try_loop R k vs prev).1 =
      stopAtFirst (updateOk R) (vs.map (fun w => (k, w))) := by
  intro vs
  induction vs with
  | nil => intro prev; rfl
  | cons v rest ih =>
      intro prev
      simp only [update_try_loop, List.map_cons, stopAtFirst]
      by_cases h : R k v = 200
      · simp [updateOk, h]
      · simp [updateOk, h, ih]

theorem update_try_loop_snd_ne (R : PKind → List Char → Nat) (k : PKind) :
    ∀ vs prev, prev ≠ 200 →
      ((update_try_loop R k vs prev).2 = 200 ↔ ∃ w ∈ vs, R k w = 200) := by
  intro vs
  induction vs with
  | nil => intro prev hp; simp [update_try_loop, hp]
  | cons v rest ih =>
      intro prev _
      simp only [update_try_loop]
      by_cases h : R k v = 200
      · simp [h]
      · simp only [if_neg h]
        rw [ih (R k v) h]
        constructor
        · rintro ⟨w, hw, hww⟩
          exact ⟨w, List.mem_cons_of_mem v hw, hww⟩
        · rintro ⟨w, hw, hww⟩
          rcases List.mem_cons.mp hw with rfl | hw'
          · exact absurd hww h
          · exact ⟨w, hw', hww⟩

theorem getLast?_cons_of_ne_nil {α : Type} (a : α) {l : List α} (h : l ≠ []) :
    (a :: l).getLast? = l.getLast? := by
  cases l with
  | nil => exact absurd rfl h
  | cons b t => rfl

theorem query_try_loop_fst (R : PKind → List Char → Nat × Nat) (k : PKind) :
    ∀ vs prev, (query_try_loop R k vs prev).1 =
      stopAtFirst (queryOk R) (vs.map (fun w => (k, w))) := by
  intro vs
  induction vs with
  | nil => intro prev; rfl
  | cons v rest ih =>
      intro prev
      simp only [query_try_loop, List.map_cons, stopAtFirst]
      by_cases h : (R k v).1 = 200 ∧ (R k v).2 ≠ 0
      · simp [queryOk, h]
      · simp [queryOk, h, ih]

theorem query_try_loop_snd (R : PKind → List Char → Nat × Nat) (k : PKind) :
    ∀ vs prev, (query_try_loop R k vs prev).2 =
      match (stopAtFirst (queryOk R) (vs.map (fun w => (k, w)))).getLast? with
      | none => prev
      | some a => R a.1 a.2 := by
  intro vs
  induction vs with
  | nil => intro prev; rfl
  | cons v rest ih =>
      intro prev
      simp only [query_try_loop, List.map_cons, stopAtFirst]
      by_cases h : (R k v).1 = 200 ∧ (R k v).2 ≠ 0
      · have hq : queryOk R (k, v) = true := by simp [queryOk, h.1, h.2]
        simp [h, hq]
      · have hq : queryOk R (k, v) = false := by
          simp only [queryOk, decide_eq_false_iff_not]
          exact h
        simp only [if_neg h, hq, Bool.false_eq_true, if_false, ite_false]
        rw [ih (R k v)]
        cases hsl : stopAtFirst (queryOk R) (rest.map (fun w => (k, w))) with
        | nil => rfl
        | cons b t =>
            rw [getLast?_cons_of_ne_nil (k, v) (by simp)]
            obtain ⟨x, hx⟩ : ∃ x, (b :: t).getLast? = some x := by
              cases hgl : (b :: t).getLast? with
              | none => exact absurd (List.getLast?_eq_none_iff.mp hgl) (by simp)
              | some x => exact ⟨x, rfl⟩
            rw [hx]

theorem query_variant_stage_fst (R : PKind → List Char → Nat × Nat)
    (pref fb : PKind) (v : List Char) (as0 : List (PKind × List Char))
    (r0 : Nat × Nat) :
    (query_variant_stage R pref fb v as0 r0).1 =
      (let pl := stopAtFirst (queryOk R) ((alt_values v).map (fun w => (pref, w)))
       let ra : Nat × Nat := match pl.getLast? with
                             | none => r0
                             | some a => R a.1 a.2
       if r0.1 = 200 ∧ r0.2 = 0 then
         if ra.1 = 200 ∧ ra.2 = 0 then
           as0 ++ pl ++ stopAtFirst (queryOk R) ((alt_values v).map (fun w => (fb, w)))
         else as0 ++ pl
       else as0) := by
  unfold query_variant_stage
  rw [apply_ite Prod.fst]
  by_cases h : r0.1 = 200 ∧ r0.2 = 0
  · rw [if_pos h, if_pos h]
    rw [apply_ite Prod.fst]
    simp only [query_try_loop_fst, query_try_loop_snd]
  · rw [if_neg h, if_neg h]

/-- A concrete update remote: only the fallback kind with the variant
"Not started" succeeds; everything else returns 400. -/
def exRemoteU : PKind → List Char → Nat := fun k w =>
  if k = PKind.status ∧ w = ("Not started").toList then 200 else 400

/-- C1, counterexample: with `property_type = "select"` and
`status_value = "not started"` against a remote that accepts only
`(status, "Not started")`, the update attempt sequence the code issues is
not the per-variant-interleaved, stop-at-first-success sequence the claim
describes: the code tries every variant on the preferred kind before any
variant on the fallback kind, so it issues `(select, "Not Started")`
(and keeps going) where the claimed order has already stopped. -/
theorem claim_C1_counterexample :
    (notion_update_status_attempts exRemoteU (("select").toList)
        (("not started").toList)).1 ≠
      claim_C1_update_order exRemoteU (("select").toList)
        (("not started").toList) := by
  decide

/-- C1 (amended): the attempt order of both probing functions, in
stop-at-first-success form.  For `notion_update_status`: the exact value on
the preferred then (on failure) the fallback kind, then all capitalization
variants on the preferred kind, then all variants on the fallback kind,
stopping at the first 200.  For `notion_query_eligible`: the preferred kind
with the exact value; the fallback kind with the exact value only when that
returned a non-200; variants only when the response in hand is a 200 with
no rows — all on the preferred kind first (stopping at a 200 with rows),
then, only if the preferred pass ended in another empty 200, all on the
fallback kind. -/
theorem claim_C1_attempt_order :
    (∀ (R : PKind → List Char → Nat) (pt v : List Char),
      (notion_update_status_attempts R pt v).1 = amended_C1_update_order R pt v) ∧
    (∀ (R : PKind → List Char → Nat × Nat) (pt v : List Char),
      (notion_query_eligible_attempts R pt v).1 = amended_C1_query_order R pt v) := by
  constructor
  · intro R pt v
    unfold notion_update_status_attempts amended_C1_update_order
    simp only []
    set pref := preferredOf pt with hpref
    set fb := fallbackOf pref with hfb
    by_cases h1 : R pref v = 200
    · rw [if_neg (not_not_intro h1)]
      have hg : updateOk R (pref, v) = true := by simp [updateOk, h1]
      simp [stopAtFirst, hg]
    · rw [if_pos h1]
      have hg1 : updateOk R (pref, v) = false := by simp [updateOk, h1]
      by_cases h2 : R fb v = 200
      · rw [if_neg (not_not_intro h2)]
        have hg2 : updateOk R (fb, v) = true := by simp [updateOk, h2]
        simp [stopAtFirst, hg1, hg2]
      · rw [if_pos h2]
        have hg2 : updateOk R (fb, v) = false := by simp [updateOk, h2]
        have hcons : stopAtFirst (updateOk R)
            ([(pref, v), (fb, v)] ++
              (alt_values v).map (fun w => (pref, w)) ++
              (alt_values v).map (fun w => (fb, w))) =
            (pref, v) :: (fb, v) :: stopAtFirst (updateOk R)
              ((alt_values v).map (fun w => (pref, w)) ++
                (alt_values v).map (fun w => (fb, w))) := by
          simp [stopAtFirst, hg1, hg2]
        rw [hcons]
        by_cases h3 : (update_try_loop R pref (alt_values v) (R fb v)).2 = 200
        · rw [if_neg (not_not_intro h3)]
          have hex : ∃ w ∈ alt_values v, R pref w = 200 :=
            (update_try_loop_snd_ne R pref (alt_values v) (R fb v) h2).mp h3
          have hex' : ∃ a ∈ (alt_values v).map (fun w => (pref, w)),
              updateOk R a = true := by
            rcases hex with ⟨w, hw, hww⟩
            exact ⟨(pref, w), List.mem_map_of_mem _ hw, by simp [updateOk, hww]⟩
          rw [stopAtFirst_append_found _ _ _ hex', update_try_loop_fst]
        · rw [if_pos h3]
          have hall : ∀ w ∈ alt_values v, R pref w ≠ 200 := by
            intro w hw hww
            exact h3 ((update_try_loop_snd_ne R pref (alt_values v) (R fb v) h2).mpr
              ⟨w, hw, hww⟩)
          have hall' : ∀ a ∈ (alt_values v).map (fun w => (pref, w)),
              updateOk R a = false := by
            intro a ha
            rcases List.mem_map.mp ha with ⟨w, hw, rfl⟩
            simp [updateOk, hall w hw]
          rw [stopAtFirst_append_all_neg _ _ _ hall',
            update_try_loop_fst, update_try_loop_fst,
            stopAtFirst_all_neg _ _ hall']
  · intro R pt v
    unfold notion_query_eligible_attempts amended_C1_query_order
    simp only []
    set pref := preferredOf pt with hpref
    set fb := fallbackOf pref with hfb
    by_cases h1 : (R pref v).1 = 200
    · rw [if_neg (not_not_intro h1), if_pos h1, if_pos h1, query_variant_stage_fst]
    · rw [if_pos h1, if_neg h1, if_neg h1, query_variant_stage_fst]

/-! ## `notion_append_section` (lines 543-877) -/

/-- Lines 641: `heading_level = max(1, min(3, int(heading_level or 2)))`.
Python truthiness maps both `None` and `0` to the default 2 before
clamping; the argument is modelled as `Option Int` (`none` = `None`). -/
def clampHeadingLevel (h : Option Int) : Int :=
  max 1 (min 3 (match h with
    | none => 2
    | some n => if n = 0 then 2 else n))

/-- Line 642: the `{1: "heading_1", 2: "heading_2", 3: "heading_3"}`
dictionary lookup; `none` models the `KeyError` raised on any other key. -/
def headingKeyOf : Int → Option (List Char) := fun n =>
  if n = 1 then some (("heading_1").toList)
  else if n = 2 then some (("heading_2").toList)
  else if n = 3 then some (("heading_3").toList)
  else none

/-- C10: for every `heading_level` argument (any integer, zero, or `None`),
the clamped level is 2 for zero and `None`, 1 for negative values, 3 for
values above 3, and the identity on 1..3; consequently the heading-key
lookup is total — it always yields one of `heading_1`, `heading_2`,
`heading_3`. -/
theorem claim_C10_heading_level :
    (∀ n : Int, clampHeadingLevel (some n) =
        if n = 0 then 2 else if n < 1 then 1 else if n > 3 then 3 else n) ∧
    clampHeadingLevel none = 2 ∧
    (∀ h : Option Int, (headingKeyOf (clampHeadingLevel h)).isSome = true) := by
  refine ⟨fun n => ?_, rfl, fun h => ?_⟩
  · simp only [clampHeadingLevel]
    by_cases h0 : n = 0
    · simp [h0]
    · simp only [h0, if_false, ite_false]
      split_ifs <;> omega
  · have hmem : clampHeadingLevel h = 1 ∨ clampHeadingLevel h = 2 ∨
        clampHeadingLevel h = 3 := by
      cases h with
      | none => right; left; rfl
      | some n =>
          simp only [clampHeadingLevel]
          by_cases h0 : n = 0
          · simp [h0]
          · simp only [h0, if_false, ite_false]
            omega
    rcases hmem with hm | hm | hm <;> simp [headingKeyOf, hm]

/-! ## Replace mode: deleting the old section body (lines 758-797) -/

/-- The fields of a fetched child block that the replace-mode deletion
logic inspects: `blk.get("id")` (`none` models an absent id) and
`blk.get("type")`. -/
structure RawChild where
  id : Option (List Char)
  btype : List Char
deriving DecidableEq

/-- `t in ("heading_1", "heading_2", "heading_3")` (line 787). -/
def isHeadingType (t : List Char) : Bool :=
  decide (t = ("heading_1").toList ∨ t = ("heading_2").toList ∨
    t = ("heading_3").toList)

/-- Python truthiness filter on a block id (line 794, `if not bid:
continue`): an absent or empty id is skipped. -/
def truthyId : Option (List Char) → Option (List Char)
  | none => none
  | some s => if s = [] then none else some s

/-- The `for i, blk in enumerate(all_children): if blk.get("id") ==
after_block_id: idx_heading = i; break` loop (lines 779-782). -/
def findAnchorIdx (anchor : List Char) : List RawChild → Option Nat
  | [] => none
  | b :: rest =>
      if b.id = some anchor then some 0
      else (findAnchorIdx anchor rest).map (· + 1)

/-- The `for j in range(idx_heading + 1, len(all_children))` search for the
next heading block of any level (lines 784-789), run here on the suffix
after the anchor. -/
def findHeadingIdx : List RawChild → Option Nat
  | [] => none
  | b :: rest =>
      if isHeadingType b.btype then some 0
      else (findHeadingIdx rest).map (· + 1)

/-- Lines 777-797 of `notion_append_section` in replace mode: from the full
paginated list of the page's direct children and the anchor id, the ids
the code issues DELETE calls for — the slice
`all_children[idx_heading + 1 : next_heading_idx or end]`, skipping blocks
with a falsy id. -/
def replace_delete_ids (children : List RawChild) (anchor : List Char) :
    List (List Char) :=
  match findAnchorIdx anchor children with
  | none => []
  | some i =>
      let rest := children.drop (i + 1)
      let slice :=
        match findHeadingIdx rest with
        | some j => rest.take j
        | none => rest
      slice.filterMap (fun b => truthyId b.id)

/-- Net effect of the batched `PATCH .../children` calls with `after` set to
the anchor (lines 799-869): the new blocks are inserted immediately after
position `i`. -/
def insertAfter {α : Type} (l : List α) (i : Nat) (new : List α) : List α :=
  l.take (i + 1) ++ new ++ l.drop (i + 1)

theorem take_findHeadingIdx_eq_takeWhile :
    ∀ l : List RawChild,
      (match findHeadingIdx l with
       | some j => l.take j
       | none => l) =
        l.takeWhile (fun b => !isHeadingType b.btype) := by
  intro l
  induction l with
  | nil => rfl
  | cons b rest ih =>
      by_cases hb : isHeadingType b.btype
      · simp [findHeadingIdx, hb, List.takeWhile_cons]
      · have hb' : isHeadingType b.btype = false := Bool.eq_false_iff.mpr hb
        have hstep : findHeadingIdx (b :: rest) = (findHeadingIdx rest).map (· + 1) := by
          simp [findHeadingIdx, hb']
        rw [hstep, List.takeWhile_cons]
        simp only [hb', Bool.not_false, if_true, ite_true]
        cases hf : findHeadingIdx rest with
        | none =>
            rw [hf] at ih
            have ih' : rest = List.takeWhile (fun b => !isHeadingType b.btype) rest := by
              simpa using ih
            exact congrArg (List.cons b) ih'
        | some j =>
            rw [hf] at ih
            have ih' : rest.take j =
                List.takeWhile (fun b => !isHeadingType b.btype) rest := by
              simpa using ih
            exact congrArg (List.cons b) ih'

/-- The page of the claim's concrete example: `[H2 "Draft", P "old",
H2 "Notes"]`, with ids `h1`, `p1`, `h2`. -/
def exDraftPage : List RawChild :=
  [⟨some (("h1").toList), ("heading_2").toList⟩,
   ⟨some (("p1").toList), ("paragraph").toList⟩,
   ⟨some (("h2").toList), ("heading_2").toList⟩]

/-- C5: in replace mode, with the anchor present at index `i`, the deleted
ids are exactly those (with truthy id) of the maximal run of non-heading
blocks immediately after the anchor — every block before the anchor, the
anchor itself, the bounding next heading (of any level) and everything
after it are untouched; with no later heading the run extends to the end
of the list.  With no anchor nothing is deleted.  On the concrete page
`[H2 "Draft" (h1), P "old" (p1), H2 "Notes" (h2)]` with anchor `h1`,
exactly `p1` is deleted, and insertion after the anchor places the new
content between `Draft` and `Notes`. -/
theorem claim_C5_replace_deletes_section :
    (∀ (children : List RawChild) (anchor : List Char) (i : Nat),
      findAnchorIdx anchor children = some i →
      replace_delete_ids children anchor =
        ((children.drop (i + 1)).takeWhile
          (fun b => !isHeadingType b.btype)).filterMap (fun b => truthyId b.id)) ∧
    (∀ (children : List RawChild) (anchor : List Char),
      findAnchorIdx anchor children = none →
      replace_delete_ids children anchor = []) ∧
    replace_delete_ids exDraftPage (("h1").toList) = [("p1").toList] ∧
    (∀ nb : RawChild,
      insertAfter [exDraftPage.get ⟨0, by decide⟩, exDraftPage.get ⟨2, by decide⟩] 0 [nb] =
        [exDraftPage.get ⟨0, by decide⟩, nb, exDraftPage.get ⟨2, by decide⟩]) := by
  refine ⟨?_, ?_, by decide, fun nb => rfl⟩
  · intro children anchor i hi
    unfold replace_delete_ids
    rw [hi]
    simp only []
    rw [take_findHeadingIdx_eq_takeWhile]
  · intro children anchor h
    unfold replace_delete_ids
    rw [h]

theorem claim_C5_replace_deletes_section_witness :
    replace_delete_ids exDraftPage (("h1").toList) =
      ((exDraftPage.drop 1).takeWhile
        (fun b => !isHeadingType b.btype)).filterMap (fun b => truthyId b.id) ∧
    replace_delete_ids exDraftPage (("h2").toList) = [] :=
  ⟨claim_C5_replace_deletes_section.1 exDraftPage (("h1").toList) 0 (by decide),
   by
    have h := claim_C5_replace_deletes_section.1 exDraftPage (("h2").toList) 2
      (by decide)
    rw [h]
    decide⟩

/-! ## Rich-text tokenizer `_rt` (lines 575-638)

The regex
``(`[^`]+`|\*\*[^*]+\*\*|\*[^*\n]+\*|_[^_\n]+_)``
is modelled operationally: `finditer` finds the leftmost match, trying at
each position the four alternatives in order; each greedy character class
`[^X]+` runs to the first stop character, and backtracking cannot produce
any other accepted span (the class cannot contain its own closing
delimiter), so each alternative either matches as below or fails at that
position.  The `startswith`/`endswith` classification of lines 606-618 is
determined by which alternative matched (a code span is the only one
starting with a backtick, a bold span the only one starting with `**`, and
a star/underscore italic span cannot start or end with a second marker
character), so the matchers return the annotated segment directly. -/

/-- An element of the Notion `rich_text` array as `_mk_segment` builds it
(line 589): text content plus the three annotation flags. -/
structure Seg where
  content : List Char
  bold : Bool
  italic : Bool
  code : Bool
deriving DecidableEq

/-- `_mk_segment` (lines 589-594). -/
def mkSeg (txt : List Char) (bold italic code : Bool) : Seg :=
  ⟨txt, bold, italic, code⟩

/-- An unannotated (plain) segment. -/
def plainSeg (txt : List Char) : Seg := ⟨txt, false, false, false⟩

/-- Scan to the first occurrence of a stop character: the characters before
it, the stop character, and the characters after it (`none` when no stop
character occurs).  This is the greedy `[^X]+`-then-delimiter step. -/
def breakAtStop (stops : List Char) : List Char → Option (List Char × Char × List Char)
  | [] => none
  | c :: r =>
      if c ∈ stops then some ([], c, r)
      else
        match breakAtStop stops r with
        | some (a, d, b) => some (c :: a, d, b)
        | none => none

/-- Alternative 1, ``​`[^`]+` ``: a code span at the current position. -/
def matchCode : List Char → Option (Seg × List Char)
  | [] => none
  | c :: r =>
      if c = btick then
        match breakAtStop [btick] r with
        | some (content, _, rest) =>
            if content = [] then none
            else some (mkSeg content false false true, rest)
        | none => none
      else none

/-- Alternative 2, `\*\*[^*]+\*\*`: a bold span at the current position. -/
def matchBold : List Char → Option (Seg × List Char)
  | c1 :: c2 :: r =>
      if c1 = '*' ∧ c2 = '*' then
        match breakAtStop ['*'] r with
        | some (content, _, rest) =>
            match rest with
            | c3 :: rest2 =>
                if c3 = '*' ∧ content ≠ [] then
                  some (mkSeg content true false false, rest2)
                else none
            | [] => none
        | none => none
      else none
  | _ => none

/-- Alternative 3, `\*[^*\n]+\*`: a star-italic span at the current
position. -/
def matchStar : List Char → Option (Seg × List Char)
  | [] => none
  | c :: r =>
      if c = '*' then
        match breakAtStop ['*', '\n'] r with
        | some (content, stop, rest) =>
            if stop = '*' ∧ content ≠ [] then
              some (mkSeg content false true false, rest)
            else none
        | none => none
      else none

/-- Alternative 4, `_[^_\n]+_`: an underscore-italic span at the current
position. -/
def matchUnder : List Char → Option (Seg × List Char)
  | [] => none
  | c :: r =>
      if c = '_' then
        match breakAtStop ['_', '\n'] r with
        | some (content, stop, rest) =>
            if stop = '_' ∧ content ≠ [] then
              some (mkSeg content false true false, rest)
            else none
        | none => none
      else none

/-- One position of the regex alternation, alternatives in source order. -/
def nextMatch (s : List Char) : Option (Seg × List Char) :=
  matchCode s <|> matchBold s <|> matchStar s <|> matchUnder s

/-- Emit the pending plain run, if non-empty (lines 602-605, 620-624). -/
def flushPlain (pend : List Char) : List Seg :=
  if pend = [] then [] else [plainSeg pend]

/-- The `finditer` token loop of `_rt` (lines 597-624): `pend` is the plain
text accumulated since the last match.  The fuel is initialised to the
input length (the scanner consumes at least one character per step), so
the fuel-exhaustion branch is unreachable. -/
def scanAux : Nat → List Char → List Char → List Seg
  | 0, s, pend => flushPlain (pend ++ s)
  | fuel + 1, s, pend =>
      match nextMatch s with
      | some (seg, rest) => flushPlain pend ++ seg :: scanAux fuel rest []
      | none =>
          match s with
          | [] => flushPlain pend
          | c :: r => scanAux fuel r (pend ++ [c])

/-- The token list produced by `_rt` before chunking. -/
def scanTokens (text : List Char) : List Seg := scanAux text.length text []

/-- Slices `l[0:n], l[n:2n], ...` of `range(0, len(l), n)`; fuel initialised
to the list length. -/
def chunkAux {α : Type} (n : Nat) : Nat → List α → List (List α)
  | _, [] => []
  | 0, l => [l]
  | fuel + 1, l => l.take n :: chunkAux n fuel (l.drop n)

/-- `for i in range(0, len(l), n): l[i:i+n]`. -/
def chunkList {α : Type} (n : Nat) (l : List α) : List (List α) :=
  chunkAux n l.length l

/-- Lines 626-637: a segment of more than 2000 characters is split into
consecutive 2000-character segments with the same annotations. -/
def chunkSeg (t : Seg) : List Seg :=
  if t.content.length ≤ 2000 then [t]
  else (chunkList 2000 t.content).map (fun c => mkSeg c t.bold t.italic t.code)

/-- `_rt` (lines 575-638): tokenize, replace an empty token list by a
single empty plain segment (`tokens or [_mk_segment("")]`, line 628), and
chunk every token. -/
def rt (text : List Char) : List Seg :=
  (if scanTokens text = [] then [plainSeg []] else scanTokens text).flatMap chunkSeg

/-- Concatenation of the `content` fields of a segment list, in order. -/
def flatSegs (ts : List Seg) : List Char := (ts.map Seg.content).flatten

/-! ### Round-trip property of the tokenizer (C6)

Inputs "in which the four markers occur only as matched spans interleaved
with plain text" are formalised as documents: lists of items, each either
plain text free of the three marker characters, or a well-formed span
whose content cannot close the span early. -/

/-- An item of a well-formed marked-up document. -/
inductive MItem
  | plainI (s : List Char)
  | codeI (s : List Char)
  | boldI (s : List Char)
  | starI (s : List Char)
  | underI (s : List Char)
deriving DecidableEq

/-- Well-formedness: plain text carries no marker characters; a span's
content is non-empty and does not contain its own delimiter (nor, for the
single-character italic spans, a newline — the regex classes `[^*\n]`,
`[^_\n]` exclude it). -/
def itemWF : MItem → Prop
  | .plainI s => ∀ c ∈ s, c ≠ btick ∧ c ≠ '*' ∧ c ≠ '_'
  | .codeI s => s ≠ [] ∧ btick ∉ s
  | .boldI s => s ≠ [] ∧ '*' ∉ s
  | .starI s => s ≠ [] ∧ '*' ∉ s ∧ '\n' ∉ s
  | .underI s => s ≠ [] ∧ '_' ∉ s ∧ '\n' ∉ s

instance itemWF_decidable : DecidablePred itemWF := fun i =>
  match i with
  | .plainI s => inferInstanceAs (Decidable (∀ c ∈ s, c ≠ btick ∧ c ≠ '*' ∧ c ≠ '_'))
  | .codeI s => inferInstanceAs (Decidable (s ≠ [] ∧ btick ∉ s))
  | .boldI s => inferInstanceAs (Decidable (s ≠ [] ∧ '*' ∉ s))
  | .starI s => inferInstanceAs (Decidable (s ≠ [] ∧ '*' ∉ s ∧ '\n' ∉ s))
  | .underI s => inferInstanceAs (Decidable (s ≠ [] ∧ '_' ∉ s ∧ '\n' ∉ s))

/-- The marked-up source text of an item. -/
def renderItem : MItem → List Char
  | .plainI s => s
  | .codeI s => btick :: s ++ [btick]
  | .boldI s => '*' :: '*' :: s ++ ['*', '*']
  | .starI s => '*' :: s ++ ['*']
  | .underI s => '_' :: s ++ ['_']

/-- The item's text with the span markers removed. -/
def stripItem : MItem → List Char
  | .plainI s => s
  | .codeI s => s
  | .boldI s => s
  | .starI s => s
  | .underI s => s

/-- The marked-up source text of a document. -/
def renderDoc (d : List MItem) : List Char := (d.map renderItem).flatten

/-- The document's text with all span markers removed. -/
def stripDoc (d : List MItem) : List Char := (d.map stripItem).flatten

theorem flatSegs_append (a b : List Seg) :
    flatSegs (a ++ b) = flatSegs a ++ flatSegs b := by
  simp [flatSegs]

theorem flatSegs_flushPlain (p : List Char) : flatSegs (flushPlain p) = p := by
  by_cases h : p = []
  · simp [flushPlain, h, flatSegs]
  · simp [flushPlain, h, flatSegs, plainSeg]

theorem breakAtStop_append (stops : List Char) :
    ∀ (C : List Char) (d : Char) (rest : List Char),
      (∀ c ∈ C, c ∉ stops) → d ∈ stops →
      breakAtStop stops (C ++ d :: rest) = some (C, d, rest) := by
  intro C
  induction C with
  | nil =>
      intro d rest _ hd
      simp [breakAtStop, hd]
  | cons c C ih =>
      intro d rest hC hd
      have hc : c ∉ stops := hC c (List.mem_cons_self c C)
      simp only [List.cons_append, breakAtStop, hc, if_false, ite_false,
        List.append_eq]
      rw [ih d rest (fun x hx => hC x (List.mem_cons_of_mem c hx)) hd]

theorem matchCode_span (C rest : List Char) (h1 : C ≠ []) (h2 : btick ∉ C) :
    matchCode (btick :: (C ++ btick :: rest)) =
      some (mkSeg C false false true, rest) := by
  simp only [matchCode, eq_self_iff_true, if_true, ite_true]
  rw [breakAtStop_append [btick] C btick rest
    (fun c hc hm => h2 ((List.mem_singleton.mp hm) ▸ hc))
    (List.mem_singleton.mpr rfl)]
  simp [h1]

theorem matchBold_span (C rest : List Char) (h1 : C ≠ []) (h2 : '*' ∉ C) :
    matchBold ('*' :: '*' :: (C ++ '*' :: '*' :: rest)) =
      some (mkSeg C true false false, rest) := by
  simp only [matchBold, eq_self_iff_true, and_self, if_true, ite_true]
  rw [breakAtStop_append ['*'] C '*' ('*' :: rest)
    (fun c hc hm => h2 ((List.mem_singleton.mp hm) ▸ hc))
    (List.mem_singleton.mpr rfl)]
  simp [h1]

theorem matchStar_span (C rest : List Char) (h1 : C ≠ []) (h2 : '*' ∉ C)
    (h3 : '\n' ∉ C) :
    matchStar ('*' :: (C ++ '*' :: rest)) =
      some (mkSeg C false true false, rest) := by
  simp only [matchStar, eq_self_iff_true, if_true, ite_true]
  rw [breakAtStop_append ['*', '\n'] C '*' rest
    (fun c hc hm => by
      rcases List.mem_cons.mp hm with rfl | hm2
      · exact h2 hc
      · exact h3 ((List.mem_singleton.mp hm2) ▸ hc))
    (List.mem_cons_self _ _)]
  simp [h1]

theorem matchUnder_span (C rest : List Char) (h1 : C ≠ []) (h2 : '_' ∉ C)
    (h3 : '\n' ∉ C) :
    matchUnder ('_' :: (C ++ '_' :: rest)) =
      some (mkSeg C false true false, rest) := by
  simp only [matchUnder, eq_self_iff_true, if_true, ite_true]
  rw [breakAtStop_append ['_', '\n'] C '_' rest
    (fun c hc hm => by
      rcases List.mem_cons.mp hm with rfl | hm2
      · exact h2 hc
      · exact h3 ((List.mem_singleton.mp hm2) ▸ hc))
    (List.mem_cons_self _ _)]
  simp [h1]

theorem matchCode_ne (c : Char) (r : List Char) (h : c ≠ btick) :
    matchCode (c :: r) = none := by simp [matchCode, h]

theorem matchBold_ne (c : Char) (r : List Char) (h : c ≠ '*') :
    matchBold (c :: r) = none := by
  cases r with
  | nil => rfl
  | cons c2 r2 => simp [matchBold, h]

theorem matchBold_second_ne (c2 : Char) (r : List Char) (h : c2 ≠ '*') :
    matchBold ('*' :: c2 :: r) = none := by simp [matchBold, h]

theorem matchStar_ne (c : Char) (r : List Char) (h : c ≠ '*') :
    matchStar (c :: r) = none := by simp [matchStar, h]

theorem matchUnder_ne (c : Char) (r : List Char) (h : c ≠ '_') :
    matchUnder (c :: r) = none := by simp [matchUnder, h]

theorem nextMatch_plain (c : Char) (r : List Char)
    (h1 : c ≠ btick) (h2 : c ≠ '*') (h3 : c ≠ '_') :
    nextMatch (c :: r) = none := by
  simp [nextMatch, matchCode_ne c r h1, matchBold_ne c r h2, matchStar_ne c r h2,
    matchUnder_ne c r h3]

theorem nextMatch_codeI (C rest : List Char) (h1 : C ≠ []) (h2 : btick ∉ C) :
    nextMatch ((btick :: C ++ [btick]) ++ rest) =
      some (mkSeg C false false true, rest) := by
  have heq : (btick :: C ++ [btick]) ++ rest = btick :: (C ++ btick :: rest) := by
    simp
  rw [heq]
  simp [nextMatch, matchCode_span C rest h1 h2]

theorem nextMatch_boldI (C rest : List Char) (h1 : C ≠ []) (h2 : '*' ∉ C) :
    nextMatch (('*' :: '*' :: C ++ ['*', '*']) ++ rest) =
      some (mkSeg C true false false, rest) := by
  have heq : ('*' :: '*' :: C ++ ['*', '*']) ++ rest =
      '*' :: '*' :: (C ++ '*' :: '*' :: rest) := by simp
  rw [heq]
  have hb : ('*' : Char) ≠ btick := by decide
  simp [nextMatch, matchCode_ne _ _ hb, matchBold_span C rest h1 h2]

theorem nextMatch_starI (C rest : List Char) (h1 : C ≠ []) (h2 : '*' ∉ C)
    (h3 : '\n' ∉ C) :
    nextMatch (('*' :: C ++ ['*']) ++ rest) =
      some (mkSeg C false true false, rest) := by
  have heq : ('*' :: C ++ ['*']) ++ rest = '*' :: (C ++ '*' :: rest) := by simp
  rw [heq]
  obtain ⟨x, C', rfl⟩ : ∃ x C', C = x :: C' := by
    cases C with
    | nil => exact absurd rfl h1
    | cons x C' => exact ⟨x, C', rfl⟩
  have hx : x ≠ '*' := fun he => h2 (he ▸ List.mem_cons_self x C')
  have hb : ('*' : Char) ≠ btick := by decide
  have hbold : matchBold ('*' :: x :: (C' ++ '*' :: rest)) = none :=
    matchBold_second_ne x _ hx
  have hstar : matchStar ('*' :: x :: (C' ++ '*' :: rest)) =
      some (mkSeg (x :: C') false true false, rest) := by
    have h := matchStar_span (x :: C') rest h1 h2 h3
    simpa using h
  simp [nextMatch, matchCode_ne _ _ hb, hbold, hstar]

theorem nextMatch_underI (C rest : List Char) (h1 : C ≠ []) (h2 : '_' ∉ C)
    (h3 : '\n' ∉ C) :
    nextMatch (('_' :: C ++ ['_']) ++ rest) =
      some (mkSeg C false true false, rest) := by
  have heq : ('_' :: C ++ ['_']) ++ rest = '_' :: (C ++ '_' :: rest) := by simp
  rw [heq]
  have hb : ('_' : Char) ≠ btick := by decide
  have hs : ('_' : Char) ≠ '*' := by decide
  simp [nextMatch, matchCode_ne _ _ hb, matchBold_ne _ _ hs, matchStar_ne _ _ hs,
    matchUnder_span C rest h1 h2 h3]

theorem flatSegs_cons (t : Seg) (ts : List Seg) :
    flatSegs (t :: ts) = t.content ++ flatSegs ts := by
  simp [flatSegs]

theorem renderDoc_cons (i : MItem) (d : List MItem) :
    renderDoc (i :: d) = renderItem i ++ renderDoc d := by
  simp [renderDoc]

theorem stripDoc_cons (i : MItem) (d : List MItem) :
    stripDoc (i :: d) = stripItem i ++ stripDoc d := by
  simp [stripDoc]

theorem scanAux_span_step (fuel : Nat) (pend rest' : List Char)
    (spanTxt : List Char) (seg : Seg)
    (hnm : nextMatch (spanTxt ++ rest') = some (seg, rest')) :
    scanAux (fuel + 1) (spanTxt ++ rest') pend =
      flushPlain pend ++ seg :: scanAux fuel rest' [] := by
  simp only [scanAux, hnm]

theorem flatSegs_step (pend : List Char) (seg : Seg) (ts : List Seg) :
    flatSegs (flushPlain pend ++ seg :: ts) =
      pend ++ (seg.content ++ flatSegs ts) := by
  rw [flatSegs_append, flatSegs_flushPlain, flatSegs_cons]

theorem scanAux_plain_prefix :
    ∀ (s : List Char) (f : Nat) (rest pend : List Char),
      (∀ c ∈ s, c ≠ btick ∧ c ≠ '*' ∧ c ≠ '_') →
      scanAux (s.length + f) (s ++ rest) pend = scanAux f rest (pend ++ s) := by
  intro s
  induction s with
  | nil => intro f rest pend _; simp
  | cons c s ih =>
      intro f rest pend h
      have hc := h c (List.mem_cons_self c s)
      have hlen : (c :: s).length + f = (s.length + f) + 1 := by
        simp [List.length_cons]; omega
      rw [hlen]
      show scanAux ((s.length + f) + 1) (c :: (s ++ rest)) pend = _
      simp only [scanAux, nextMatch_plain c _ hc.1 hc.2.1 hc.2.2]
      rw [ih f rest (pend ++ [c]) (fun x hx => h x (List.mem_cons_of_mem c hx))]
      simp

theorem scanAux_renderDoc :
    ∀ (d : List MItem), (∀ i ∈ d, itemWF i) →
      ∀ (fuel : Nat) (pend : List Char), (renderDoc d).length ≤ fuel →
      flatSegs (scanAux fuel (renderDoc d) pend) = pend ++ stripDoc d := by
  intro d
  induction d with
  | nil =>
      intro _ fuel pend _
      have hr : renderDoc ([] : List MItem) = [] := rfl
      have hs : stripDoc ([] : List MItem) = [] := rfl
      rw [hr, hs]
      cases fuel with
      | zero => simp [scanAux, flatSegs_flushPlain]
      | succ f =>
          show flatSegs (scanAux (f + 1) [] pend) = pend ++ []
          simp only [scanAux]
          rw [show nextMatch [] = none from rfl]
          simp [flatSegs_flushPlain]
  | cons i d' ih =>
      intro hwf fuel pend hlen
      have hwfi : itemWF i := hwf i (List.mem_cons_self i d')
      have hwf' : ∀ j ∈ d', itemWF j := fun j hj => hwf j (List.mem_cons_of_mem i hj)
      rw [renderDoc_cons] at hlen ⊢
      rw [stripDoc_cons]
      cases i with
      | plainI s =>
          obtain ⟨f', rfl⟩ : ∃ f', fuel = s.length + f' := by
            refine ⟨fuel - s.length, ?_⟩
            have : s.length ≤ fuel := by
              have := hlen
              simp only [List.length_append, renderItem] at this
              omega
            omega
          rw [show renderItem (MItem.plainI s) = s from rfl,
            scanAux_plain_prefix s f' (renderDoc d') pend hwfi]
          rw [ih hwf' f' (pend ++ s) (by
            simp only [List.length_append, renderItem] at hlen
            omega)]
          simp [stripItem]
      | codeI C =>
          obtain ⟨f, rfl⟩ : ∃ f, fuel = f + 1 := by
            cases fuel with
            | zero =>
                exfalso
                simp only [List.length_append, renderItem, List.length_cons] at hlen
                omega
            | succ f => exact ⟨f, rfl⟩
          rw [scanAux_span_step f pend (renderDoc d') (renderItem (MItem.codeI C))
            (mkSeg C false false true)
            (nextMatch_codeI C (renderDoc d') hwfi.1 hwfi.2)]
          rw [flatSegs_step, ih hwf' f [] (by
            simp only [List.length_append, renderItem, List.length_cons] at hlen
            omega)]
          simp [stripItem, mkSeg]
      | boldI C =>
          obtain ⟨f, rfl⟩ : ∃ f, fuel = f + 1 := by
            cases fuel with
            | zero =>
                exfalso
                simp only [List.length_append, renderItem, List.length_cons] at hlen
                omega
            | succ f => exact ⟨f, rfl⟩
          rw [scanAux_span_step f pend (renderDoc d') (renderItem (MItem.boldI C))
            (mkSeg C true false false)
            (nextMatch_boldI C (renderDoc d') hwfi.1 hwfi.2)]
          rw [flatSegs_step, ih hwf' f [] (by
            simp only [List.length_append, renderItem, List.length_cons] at hlen
            omega)]
          simp [stripItem, mkSeg]
      | starI C =>
          obtain ⟨f, rfl⟩ : ∃ f, fuel = f + 1 := by
            cases fuel with
            | zero =>
                exfalso
                simp only [List.length_append, renderItem, List.length_cons] at hlen
                omega
            | succ f => exact ⟨f, rfl⟩
          rw [scanAux_span_step f pend (renderDoc d') (renderItem (MItem.starI C))
            (mkSeg C false true false)
            (nextMatch_starI C (renderDoc d') hwfi.1 hwfi.2.1 hwfi.2.2)]
          rw [flatSegs_step, ih hwf' f [] (by
            simp only [List.length_append, renderItem, List.length_cons] at hlen
            omega)]
          simp [stripItem, mkSeg]
      | underI C =>
          obtain ⟨f, rfl⟩ : ∃ f, fuel = f + 1 := by
            cases fuel with
            | zero =>
                exfalso
                simp only [List.length_append, renderItem, List.length_cons] at hlen
                omega
            | succ f => exact ⟨f, rfl⟩
          rw [scanAux_span_step f pend (renderDoc d') (renderItem (MItem.underI C))
            (mkSeg C false true false)
            (nextMatch_underI C (renderDoc d') hwfi.1 hwfi.2.1 hwfi.2.2)]
          rw [flatSegs_step, ih hwf' f [] (by
            simp only [List.length_append, renderItem, List.length_cons] at hlen
            omega)]
          simp [stripItem, mkSeg]

theorem chunkAux_flatten {α : Type} (n : Nat) :
    ∀ (fuel : Nat) (l : List α), (chunkAux n fuel l).flatten = l := by
  intro fuel
  induction fuel with
  | zero =>
      intro l
      cases l with
      | nil => rfl
      | cons a r => simp [chunkAux]
  | succ f ih =>
      intro l
      cases l with
      | nil => rfl
      | cons a r =>
          show ((a :: r).take n :: chunkAux n f ((a :: r).drop n)).flatten = a :: r
          simp [ih]

theorem flatSegs_chunkSeg (t : Seg) : flatSegs (chunkSeg t) = t.content := by
  unfold chunkSeg
  by_cases h : t.content.length ≤ 2000
  · simp [h, flatSegs]
  · rw [if_neg h]
    have hmap : ((chunkList 2000 t.content).map
        (fun c => mkSeg c t.bold t.italic t.code)).map Seg.content =
        chunkList 2000 t.content := by
      rw [List.map_map]
      have hc : (Seg.content ∘ fun c => mkSeg c t.bold t.italic t.code) =
          fun c : List Char => c := by
        funext c; rfl
      rw [hc]
      simp
    rw [flatSegs, hmap]
    exact chunkAux_flatten 2000 _ _

theorem flatSegs_flatMap_chunk (ts : List Seg) :
    flatSegs (ts.flatMap chunkSeg) = flatSegs ts := by
  induction ts with
  | nil => rfl
  | cons t ts ih =>
      rw [List.flatMap_cons, flatSegs_append, flatSegs_chunkSeg, ih, flatSegs_cons]

theorem flatSegs_rt (text : List Char) :
    flatSegs (rt text) = flatSegs (scanTokens text) := by
  unfold rt
  by_cases h : scanTokens text = []
  · rw [if_pos h, h]
    decide
  · rw [if_neg h]
    exact flatSegs_flatMap_chunk _

/-- C6: for every input in which backtick, double-asterisk, single-asterisk
and underscore markers occur only as matched spans interleaved with plain
text (formalised as the rendering of a well-formed document), concatenating
the `content` fields of `_rt`'s output segments, in order, reproduces the
input with all span markers removed. -/
theorem claim_C6_rt_roundtrip :
    ∀ d : List MItem, (∀ i ∈ d, itemWF i) →
      flatSegs (rt (renderDoc d)) = stripDoc d := by
  intro d hwf
  rw [flatSegs_rt]
  have h := scanAux_renderDoc d hwf (renderDoc d).length [] (le_refl _)
  simpa [scanTokens] using h

/-- A concrete document exercising all four span kinds. -/
def exDoc : List MItem :=
  [MItem.plainI ("Hello ").toList, MItem.boldI ("world").toList,
   MItem.plainI (" and ").toList, MItem.codeI ("x*y_z").toList,
   MItem.plainI (" ").toList, MItem.starI ("it").toList,
   MItem.plainI (" ").toList, MItem.underI ("em").toList]

theorem claim_C6_rt_roundtrip_witness :
    flatSegs (rt (renderDoc exDoc)) = stripDoc exDoc ∧
    renderDoc exDoc = ("Hello **world** and `x*y_z` *it* _em_").toList ∧
    stripDoc exDoc = ("Hello world and x*y_z it em").toList :=
  ⟨claim_C6_rt_roundtrip exDoc (by decide), by decide, by decide⟩

/-! ## Block-tree builder of `notion_append_section` (lines 657-725)

The builder's Python mutates blocks in place: a pushed list item is
appended to its parent's `children` (or to `body_blocks`) immediately, and
later appends mutate it through the aliases held on `list_stack`.  The
pure model instead keeps an unfinished block as a stack frame and attaches
it to its parent (or to the finished top-level list) at the moment it is
popped; since the Python only reads the tree after the loop, the final
tree is the same. -/

/-- A built content block (`_paragraph_block`, `_make_block`, and — for the
upsert model below — heading blocks). -/
inductive Block
  | para (rich : List Seg)
  | bullet (rich : List Seg) (children : List Block)
  | number (rich : List Seg) (children : List Block)
  | heading (lvl : Int) (rich : List Seg)

/-- `str.splitlines()` with `\n` separators (the only separator the
repository's content uses): no trailing empty line for a trailing newline,
and the empty string yields no lines. -/
def splitLinesAux : List Char → List Char → List (List Char)
  | [], cur => [cur]
  | c :: r, cur =>
      if c = '\n' then
        cur :: (match r with
                | [] => []
                | _ :: _ => splitLinesAux r [])
      else splitLinesAux r (cur ++ [c])

def splitLines : List Char → List (List Char)
  | [] => []
  | s => splitLinesAux s []

/-- `raw.rstrip("\n")` (line 696). -/
def stripTrailingNL (l : List Char) : List Char :=
  (l.reverse.dropWhile (fun c => c = '\n')).reverse

/-- `list_pat_bullet = ^(\s*)[-*]\s+(.+)$` (line 664), returning the
indent length and the item text.  The greedy `\s+`/`(.+)` interplay plus
the `.strip()` applied at line 703 make the net text `strip` of everything
after the marker; the regex requires at least one whitespace character and
at least one further character after the marker. -/
def bulletLine (l : List Char) : Option (Nat × List Char) :=
  let ind := l.takeWhile isWS
  match l.dropWhile isWS with
  | m :: rest =>
      if m = '-' ∨ m = '*' then
        match rest with
        | c :: t => if isWS c ∧ t ≠ [] then some (ind.length, pyStrip rest) else none
        | [] => none
      else none
  | [] => none

/-- `list_pat_number = ^(\s*)\d+[\.)]\s+(.+)$` (line 665). -/
def numberLine (l : List Char) : Option (Nat × List Char) :=
  let ind := l.takeWhile isWS
  let after := l.dropWhile isWS
  let ds := after.takeWhile Char.isDigit
  match after.dropWhile Char.isDigit with
  | m :: rest =>
      if ds ≠ [] ∧ (m = '.' ∨ m = ')') then
        match rest with
        | c :: t => if isWS c ∧ t ≠ [] then some (ind.length, pyStrip rest) else none
        | [] => none
      else none
  | [] => none

/-- `list_pat_bullet.match(l) or list_pat_number.match(l)` (line 667),
keeping only the indent length. -/
def lineListIndent (l : List Char) : Option Nat :=
  match bulletLine l with
  | some (ind, _) => some ind
  | none =>
      match numberLine l with
      | some (ind, _) => some ind
      | none => none

/-- The positive indents collected by the loop of lines 666-671. -/
def indentCandidates (lines : List (List Char)) : List Nat :=
  lines.filterMap (fun l =>
    match lineListIndent l with
    | some ind => if ind > 0 then some ind else none
    | none => none)

/-- `indent_size = min(indent_candidates) if indent_candidates else 2`
(line 672). -/
def indent_size (lines : List (List Char)) : Nat :=
  match indentCandidates lines with
  | [] => 2
  | c :: rest => rest.foldl min c

/-- An open (unfinished) list item: its nesting level, kind, raw text and
the children attached so far. -/
structure LFrame where
  level : Nat
  isBullet : Bool
  text : List Char
  children : List Block

/-- Close a frame into its block (`_make_block`, lines 674-678, with the
`children` accumulated while the frame was open). -/
def closeFrame (f : LFrame) : Block :=
  if f.isBullet then Block.bullet (rt f.text) f.children
  else Block.number (rt f.text) f.children

/-- Builder state: finished top-level blocks (`body_blocks`), the paragraph
buffer (`para_buf`), and the open-list stack (`list_stack`, head =
innermost frame). -/
structure BState where
  done : List Block
  buf : List (List Char)
  stack : List LFrame

/-- The `while list_stack and list_stack[-1][0] >= level: list_stack.pop()`
loop (lines 710-711), attaching each popped frame's block to its parent
frame (or to the finished list when it was the outermost frame).  Fuel is
initialised to the stack length; each step shortens the stack by one. -/
def popFramesAux (lvl : Nat) : Nat → List LFrame → List Block → List LFrame × List Block
  | _, [], done => ([], done)
  | 0, st, done => (st, done)
  | fuel + 1, f :: rest, done =>
      if lvl ≤ f.level then
        match rest with
        | [] => ([], done ++ [closeFrame f])
        | g :: r2 =>
            popFramesAux lvl fuel
              ({ g with children := g.children ++ [closeFrame f] } :: r2) done
      else (f :: rest, done)

def popFrames (lvl : Nat) (st : List LFrame) (done : List Block) :
    List LFrame × List Block :=
  popFramesAux lvl st.length st done

/-- Collapse the whole stack (every level is `≥ 0`): the pure counterpart
of forgetting `list_stack` when the blocks are already in the tree. -/
def popAllFrames (st : List LFrame) (done : List Block) : List Block :=
  (popFrames 0 st done).2

/-- `_flush_paragraph` (lines 683-693): nothing happens on an empty buffer;
otherwise the buffered lines are joined with single spaces, stripped,
chunked at 1800 characters into paragraph blocks, and the buffer **and the
open-list stack** are cleared. -/
def flush_paragraph (st : BState) : BState :=
  if st.buf = [] then st
  else
    let p := pyStrip (List.intercalate [' '] st.buf)
    let paras := if p = [] then []
                 else (chunkList 1800 p).map (fun c => Block.para (rt c))
    ⟨popAllFrames st.stack st.done ++ paras, [], []⟩

/-- Lines 702-717: handle one matched list-item line. -/
def handle_item (isz : Nat) (st : BState) (isBul : Bool) (spaces : Nat)
    (text : List Char) : BState :=
  let level := spaces / max 1 isz
  let pd := popFrames level st.stack st.done
  ⟨pd.2, st.buf, ⟨level, isBul, text, []⟩ :: pd.1⟩

/-- Lines 720-725: a blank line flushes the paragraph buffer, any other
non-list line accumulates into it. -/
def paraOrBlank (st : BState) (line : List Char) : BState :=
  if pyStrip line = [] then flush_paragraph st
  else ⟨st.done, st.buf ++ [line], st.stack⟩

/-- The body of the `for raw in lines + [""]` loop (lines 695-725). -/
def procLine (detect : Bool) (isz : Nat) (st : BState) (raw : List Char) : BState :=
  let line := stripTrailingNL raw
  if detect then
    match bulletLine line with
    | some (sp, text) => handle_item isz (flush_paragraph st) true sp text
    | none =>
        match numberLine line with
        | some (sp, text) => handle_item isz (flush_paragraph st) false sp text
        | none => paraOrBlank st line
  else paraOrBlank st line

/-- The complete block-tree builder of `notion_append_section`
(lines 657-725): split into lines, infer the unit indent, run the line
loop over `lines + [""]`, and read off the finished top-level blocks. -/
def buildBlocks (detect : Bool) (content : List Char) : List Block :=
  let lines := splitLines content
  let isz := indent_size lines
  let st := (lines ++ [[]]).foldl (procLine detect isz) ⟨[], [], []⟩
  popAllFrames st.stack st.done

/-- C7, counterexample: on the input `"- a\n\n  - b"` the blank line
arrives while the paragraph buffer is empty, so `_flush_paragraph` returns
early (line 685-686) and the open list context survives the blank line;
the post-blank item `b` is then attached as a child of the pre-blank item
`a` — the claim asserts this never happens. -/
theorem claim_C7_counterexample :
    buildBlocks true (("- a\n\n  - b").toList) =
      [Block.bullet (rt (("a").toList)) [Block.bullet (rt (("b").toList)) []]] ∧
    (buildBlocks true (("- a\n\n  - b").toList)).length = 1 :=
  ⟨rfl, rfl⟩

theorem chunkAux_length_le {α : Type} (n : Nat) (hn : 1 ≤ n) :
    ∀ (fuel : Nat) (l : List α), l.length ≤ fuel →
      ∀ c ∈ chunkAux n fuel l, c.length ≤ n := by
  intro fuel
  induction fuel with
  | zero =>
      intro l hl c hc
      cases l with
      | nil => simp [chunkAux] at hc
      | cons a r => simp at hl
  | succ f ih =>
      intro l hl c hc
      cases l with
      | nil => simp [chunkAux] at hc
      | cons a r =>
          rw [show chunkAux n (f + 1) (a :: r) =
              (a :: r).take n :: chunkAux n f ((a :: r).drop n) from rfl] at hc
          rcases List.mem_cons.mp hc with rfl | hc2
          · simp
          · refine ih ((a :: r).drop n) ?_ c hc2
            simp only [List.length_drop, List.length_cons] at hl ⊢
            omega

/-- C7 (amended): a blank line hands the state to `_flush_paragraph`; with
a non-empty buffer this flushes the buffered lines — joined with single
spaces, stripped, chunked at 1800 characters per paragraph block (the
chunks concatenate back to the joined text and each is at most 1800
characters) — and closes any open list context; with an **empty** buffer
the blank line leaves the state, including any open list context,
unchanged, so a list item after such a blank line can still attach as a
child of a pre-blank-line list item. -/
theorem claim_C7_blank_line :
    (∀ (detect : Bool) (isz : Nat) (st : BState),
      procLine detect isz st [] = flush_paragraph st) ∧
    (∀ st : BState, st.buf = [] → flush_paragraph st = st) ∧
    (∀ st : BState, st.buf ≠ [] →
      (flush_paragraph st).stack = [] ∧
      (flush_paragraph st).buf = [] ∧
      (flush_paragraph st).done =
        popAllFrames st.stack st.done ++
          (chunkList 1800 (pyStrip (List.intercalate [' '] st.buf))).map
            (fun c => Block.para (rt c))) ∧
    (∀ p : List Char,
      (chunkList 1800 p).flatten = p ∧
      ∀ c ∈ chunkList 1800 p, c.length ≤ 1800) := by
  refine ⟨?_, ?_, ?_, ?_⟩
  · intro detect isz st
    cases detect <;> rfl
  · intro st h
    unfold flush_paragraph
    rw [if_pos h]
  · intro st h
    unfold flush_paragraph
    rw [if_neg h]
    refine ⟨rfl, rfl, ?_⟩
    simp only []
    by_cases hp : pyStrip (List.intercalate [' '] st.buf) = []
    · rw [if_pos hp, hp]
      rfl
    · rw [if_neg hp]
  · intro p
    exact ⟨chunkAux_flatten 1800 p.length p,
      chunkAux_length_le 1800 (by omega) p.length p (le_refl _)⟩

/-- A state with a buffered paragraph line and an open list frame. -/
def exState : BState :=
  ⟨[], [("hello").toList], [⟨0, true, ("x").toList, []⟩]⟩

/-- A state with an empty buffer and an open list frame. -/
def exState2 : BState := ⟨[], [], [⟨0, true, ("x").toList, []⟩]⟩

theorem claim_C7_blank_line_witness :
    procLine true 2 exState [] = flush_paragraph exState ∧
    flush_paragraph exState2 = exState2 ∧
    (flush_paragraph exState).stack = [] ∧
    (chunkList 1800 (("hello world").toList)).flatten = ("hello world").toList :=
  ⟨claim_C7_blank_line.1 true 2 exState,
   claim_C7_blank_line.2.1 exState2 rfl,
   (claim_C7_blank_line.2.2.1 exState (by decide)).1,
   (claim_C7_blank_line.2.2.2 (("hello world").toList)).1⟩

theorem foldl_min_min? : ∀ (rest : List Nat) (c : Nat),
    List.foldl min c rest = (rest.min?).elim c (min c) := by
  intro rest
  induction rest with
  | nil => intro c; rfl
  | cons x xs ih =>
      intro c
      rw [List.foldl_cons, ih (min c x), List.min?_cons]
      cases hxs : xs.min? with
      | none => simp
      | some m =>
          simp only [Option.elim]
          exact min_assoc c x m

theorem popFramesAux_levels (lvl : Nat) :
    ∀ (fuel : Nat) (st : List LFrame) (done : List Block), st.length ≤ fuel →
      (popFramesAux lvl fuel st done).1.map LFrame.level =
        (st.map LFrame.level).dropWhile (fun l => decide (lvl ≤ l)) := by
  intro fuel
  induction fuel with
  | zero =>
      intro st done h
      cases st with
      | nil => rfl
      | cons f r => simp at h
  | succ fu ih =>
      intro st done h
      cases st with
      | nil => rfl
      | cons f rest =>
          by_cases hl : lvl ≤ f.level
          · cases rest with
            | nil => simp [popFramesAux, hl, List.dropWhile]
            | cons g r2 =>
                have hstep : popFramesAux lvl (fu + 1) (f :: g :: r2) done =
                    popFramesAux lvl fu
                      ({ g with children := g.children ++ [closeFrame f] } :: r2)
                      done := by
                  simp [popFramesAux, hl]
                rw [hstep, ih _ done (by
                  simp only [List.length_cons] at h ⊢
                  omega)]
                simp [List.dropWhile, hl]
          · simp [popFramesAux, hl, List.dropWhile]

/-- C8: the unit indent is the minimum of the positive list-line indents
(2 when there are none); the open-list stack is popped while its top
frame's level is at least the new item's level; and on the claim's
concrete inputs the builder produces the claimed trees: a three-level
chain for two-space-per-level nesting, and a pop back to top level when
the indent returns to zero. -/
theorem claim_C8_indent_nesting :
    (∀ lines : List (List Char),
      indent_size lines = ((indentCandidates lines).min?).getD 2) ∧
    (∀ (lvl : Nat) (st : List LFrame) (done : List Block),
      (popFrames lvl st done).1.map LFrame.level =
        (st.map LFrame.level).dropWhile (fun l => decide (lvl ≤ l))) ∧
    buildBlocks true (("- a\n  - b\n    - c").toList) =
      [Block.bullet (rt (("a").toList))
        [Block.bullet (rt (("b").toList))
          [Block.bullet (rt (("c").toList)) []]]] ∧
    buildBlocks true (("- a\n  - b\n- c").toList) =
      [Block.bullet (rt (("a").toList)) [Block.bullet (rt (("b").toList)) []],
       Block.bullet (rt (("c").toList)) []] := by
  refine ⟨?_, ?_, rfl, rfl⟩
  · intro lines
    unfold indent_size
    cases h : indentCandidates lines with
    | nil => rfl
    | cons c rest => simp [List.min?_cons, foldl_min_min?]
  · intro lvl st done
    exact popFramesAux_levels lvl st.length st done (le_refl _)

/-! ## Find-or-create heading, and idempotence (lines 727-756, C9)

The page is modelled as the list of its direct child blocks; remote block
ids are modelled by positions, every remote call is assumed to succeed,
and the batched inserts with the advancing `after` anchor (lines 851-869)
collapse to one insertion immediately after the anchor.  Mode is the
default `append`.  Unlike the replace path (which walks the cursor, lines
762-775), the locate step issues a single
`GET .../children?page_size=100` with no pagination loop (line 730), so it
sees at most the first 100 children — modelled as `page.take 100`. -/

/-- Block-type test against the heading types. -/
def isHeading : Block → Bool
  | .heading _ _ => true
  | _ => false

/-- The heading-match test of lines 736-741: the block's type equals the
requested `heading_key` and its joined rich-text, stripped, equals the
requested heading text, stripped. -/
def headingMatches (lvl : Int) (heading : List Char) (b : Block) : Bool :=
  match b with
  | .heading l r => decide (l = lvl ∧ pyStrip (flatSegs r) = pyStrip heading)
  | _ => false

/-- The locate loop of lines 736-742: first matching block of the fetched
children list, as a position. -/
def locateHeadingAux (lvl : Int) (heading : List Char) : List Block → Option Nat
  | [] => none
  | b :: rest =>
      if headingMatches lvl heading b then some 0
      else (locateHeadingAux lvl heading rest).map (· + 1)

/-- Pure model of `notion_append_section` with `find_existing = true` and
`mode = "append"`: locate an existing heading (lines 728-742); create one
at the end of the page when absent (lines 744-756, a `PATCH children`
without `after` appends at the end); build the body blocks
(`body_blocks or [_paragraph_block("")]`, line 848) and insert them after
the anchor (lines 799-869).  Returns the new page and whether a heading
was created. -/
def bodyOrEmpty (detect : Bool) (content : List Char) : List Block :=
  match buildBlocks detect content with
  | [] => [Block.para (rt [])]
  | bs => bs

def notion_append_section (page : List Block) (heading : List Char)
    (heading_level : Option Int) (content : List Char) (detect : Bool) :
    List Block × Bool :=
  match locateHeadingAux (clampHeadingLevel heading_level) heading
      (page.take 100) with
  | some i => (insertAfter page i (bodyOrEmpty detect content), false)
  | none =>
      (insertAfter
        (page ++ [Block.heading (clampHeadingLevel heading_level) (rt heading)])
        ((page ++ [Block.heading (clampHeadingLevel heading_level) (rt heading)]).length - 1)
        (bodyOrEmpty detect content), true)

/-- Number of page children matching the locate test. -/
def countMatchingHeadings (page : List Block) (lvl : Int) (heading : List Char) : Nat :=
  page.countP (headingMatches lvl heading)

/-- Number of heading blocks of any level among the page children. -/
def countHeadings (page : List Block) : Nat := page.countP isHeading

theorem locateAux_eq_none_iff (lvl : Int) (heading : List Char) :
    ∀ page : List Block,
      locateHeadingAux lvl heading page = none ↔
        ∀ b ∈ page, headingMatches lvl heading b = false := by
  intro page
  induction page with
  | nil => simp [locateHeadingAux]
  | cons b rest ih =>
      by_cases hb : headingMatches lvl heading b
      · simp [locateHeadingAux, hb]
      · simp [locateHeadingAux, hb, ih, Bool.eq_false_iff.mpr hb]

theorem headingMatches_false_of_not_heading (lvl : Int) (heading : List Char)
    (b : Block) (h : isHeading b = false) :
    headingMatches lvl heading b = false := by
  cases b <;> simp_all [headingMatches, isHeading]

theorem popFramesAux_no_heading (lvl : Nat) :
    ∀ (fuel : Nat) (st : List LFrame) (done : List Block),
      (∀ b ∈ done, isHeading b = false) →
      ∀ b ∈ (popFramesAux lvl fuel st done).2, isHeading b = false := by
  intro fuel
  induction fuel with
  | zero =>
      intro st done hd
      cases st with
      | nil => exact hd
      | cons f r => exact hd
  | succ fu ih =>
      intro st done hd
      cases st with
      | nil => exact hd
      | cons f rest =>
          by_cases hl : lvl ≤ f.level
          · cases rest with
            | nil =>
                simp only [popFramesAux, hl, if_true, ite_true]
                intro b hb
                rcases List.mem_append.mp hb with hb1 | hb2
                · exact hd b hb1
                · rw [List.mem_singleton.mp hb2]
                  by_cases hbul : f.isBullet <;> simp [closeFrame, hbul, isHeading]
            | cons g r2 =>
                simp only [popFramesAux, hl, if_true, ite_true]
                exact ih _ done hd
          · simp only [popFramesAux, hl, if_false, ite_false]
            exact hd

theorem flush_paragraph_no_heading (st : BState)
    (h : ∀ b ∈ st.done, isHeading b = false) :
    ∀ b ∈ (flush_paragraph st).done, isHeading b = false := by
  unfold flush_paragraph
  by_cases hb : st.buf = []
  · rw [if_pos hb]; exact h
  · rw [if_neg hb]
    intro b hmem
    rcases List.mem_append.mp hmem with h1 | h2
    · exact popFramesAux_no_heading 0 st.stack.length st.stack st.done h b h1
    · by_cases hp : pyStrip (List.intercalate [' '] st.buf) = []
      · rw [if_pos hp] at h2
        exact absurd h2 (List.not_mem_nil b)
      · rw [if_neg hp] at h2
        rcases List.mem_map.mp h2 with ⟨c, _, hc⟩
        rw [← hc]
        rfl

theorem procLine_no_heading (detect : Bool) (isz : Nat) (st : BState)
    (raw : List Char) (h : ∀ b ∈ st.done, isHeading b = false) :
    ∀ b ∈ (procLine detect isz st raw).done, isHeading b = false := by
  unfold procLine
  have hflush := flush_paragraph_no_heading st h
  have hpb : ∀ b ∈ (paraOrBlank st (stripTrailingNL raw)).done, isHeading b = false := by
    unfold paraOrBlank
    by_cases hb : pyStrip (stripTrailingNL raw) = []
    · rw [if_pos hb]; exact hflush
    · rw [if_neg hb]; exact h
  have hitem : ∀ (isBul : Bool) (sp : Nat) (text : List Char),
      ∀ b ∈ (handle_item isz (flush_paragraph st) isBul sp text).done,
        isHeading b = false := by
    intro isBul sp text b hb
    unfold handle_item at hb
    simp only [] at hb
    exact popFramesAux_no_heading _ _ _ _ hflush b hb
  cases detect with
  | false => exact hpb
  | true =>
      show ∀ b ∈ (match bulletLine (stripTrailingNL raw) with
        | some (sp, text) => handle_item isz (flush_paragraph st) true sp text
        | none =>
            match numberLine (stripTrailingNL raw) with
            | some (sp, text) => handle_item isz (flush_paragraph st) false sp text
            | none => paraOrBlank st (stripTrailingNL raw)).done,
        isHeading b = false
      cases bulletLine (stripTrailingNL raw) with
      | some v =>
          obtain ⟨sp, text⟩ := v
          exact hitem true sp text
      | none =>
          cases numberLine (stripTrailingNL raw) with
          | some v =>
              obtain ⟨sp, text⟩ := v
              exact hitem false sp text
          | none => exact hpb

theorem buildBlocks_no_heading (detect : Bool) (content : List Char) :
    ∀ b ∈ buildBlocks detect content, isHeading b = false := by
  unfold buildBlocks
  have hfold : ∀ (lines : List (List Char)) (st : BState),
      (∀ b ∈ st.done, isHeading b = false) →
      ∀ b ∈ (lines.foldl (procLine detect (indent_size (splitLines content))) st).done,
        isHeading b = false := by
    intro lines
    induction lines with
    | nil => intro st h; exact h
    | cons l rest ih =>
        intro st h
        exact ih _ (procLine_no_heading _ _ st l h)
  intro b hb
  exact popFramesAux_no_heading 0 _ _ _
    (hfold (splitLines content ++ [[]]) ⟨[], [], []⟩ (by intro b hb; simp at hb))
    b hb

theorem countP_insertAfter (p : Block → Bool) (page : List Block) (i : Nat)
    (new : List Block) :
    (insertAfter page i new).countP p = page.countP p + new.countP p := by
  unfold insertAfter
  rw [List.countP_append, List.countP_append]
  conv_rhs => rw [← List.take_append_drop (i + 1) page, List.countP_append]
  omega

set_option maxRecDepth 4000 in
/-- C9, counterexample: the claim fails in two independent ways.
With heading text `"**Draft**"` (same text and level in both calls,
`find_existing = true`), the created heading block's rich-text is
`_rt("**Draft**")`, whose flattened text is `Draft` with the markers
stripped; the second call's locate step compares `Draft` against
`**Draft**`, fails, and creates a second heading — after two calls the
page carries two heading blocks, and none whose flattened text equals the
argument text.  And with the marker-free heading `"Draft"` on a page that
already has 100 children, the first call appends the heading at index 100,
the second call's single `page_size=100` fetch never sees it, and a
duplicate is created — two matching headings.  Either way, not the
"exactly one heading block with that text" the claim asserts. -/
theorem claim_C9_counterexample :
    countHeadings ((notion_append_section
        ((notion_append_section [] (("**Draft**").toList) (some 2)
          (("body").toList) true).1)
        (("**Draft**").toList) (some 2) (("body").toList) true).1) = 2 ∧
    countMatchingHeadings ((notion_append_section
        ((notion_append_section [] (("**Draft**").toList) (some 2)
          (("body").toList) true).1)
        (("**Draft**").toList) (some 2) (("body").toList) true).1)
      (clampHeadingLevel (some 2)) (("**Draft**").toList) = 0 ∧
    (notion_append_section
        ((notion_append_section [] (("**Draft**").toList) (some 2)
          (("body").toList) true).1)
        (("**Draft**").toList) (some 2) (("body").toList) true).2 = true ∧
    countMatchingHeadings ((notion_append_section
        ((notion_append_section (List.replicate 100 (Block.para []))
          (("Draft").toList) (some 2) (("body").toList) true).1)
        (("Draft").toList) (some 2) (("body").toList) true).1)
      (clampHeadingLevel (some 2)) (("Draft").toList) = 2 :=
  ⟨rfl, rfl, rfl, rfl⟩

/-- C9 (amended): provided the heading text is invariant under the
rich-text tokenizer up to stripping — `pyStrip (flatSegs (rt heading)) =
pyStrip heading`, which holds whenever the heading contains no inline
markdown markers — and the page has fewer than 100 children, so that the
heading created by the first call falls within the single
`page_size=100` window the locate step fetches, calling
`notion_append_section` twice against a page with no matching heading,
with `find_existing = true` and the same heading text and level, leaves
exactly one matching heading block: the second call's locate step finds
the heading created by the first call and creates nothing. -/
theorem claim_C9_idempotent :
    ∀ (page : List Block) (heading : List Char) (hl : Option Int)
      (c1 c2 : List Char) (detect : Bool),
      pyStrip (flatSegs (rt heading)) = pyStrip heading →
      countMatchingHeadings page (clampHeadingLevel hl) heading = 0 →
      page.length < 100 →
      countMatchingHeadings
        (notion_append_section page heading hl c1 detect).1
        (clampHeadingLevel hl) heading = 1 ∧
      (notion_append_section
        (notion_append_section page heading hl c1 detect).1
        heading hl c2 detect).2 = false ∧
      countMatchingHeadings
        (notion_append_section
          (notion_append_section page heading hl c1 detect).1
          heading hl c2 detect).1
        (clampHeadingLevel hl) heading = 1 := by
  intro page heading hl c1 c2 detect hinv hzero hlen
  set lvl := clampHeadingLevel hl with hlvl
  have hbody : ∀ content : List Char,
      (bodyOrEmpty detect content).countP (headingMatches lvl heading) = 0 := by
    intro content
    rw [List.countP_eq_zero]
    intro b hb
    rw [Bool.not_eq_true]
    refine headingMatches_false_of_not_heading lvl heading b ?_
    unfold bodyOrEmpty at hb
    cases hbb : buildBlocks detect content with
    | nil =>
        rw [hbb] at hb
        rw [List.mem_singleton.mp hb]
        rfl
    | cons x bs =>
        rw [hbb] at hb
        exact buildBlocks_no_heading detect content b (by rw [hbb]; exact hb)
  have hmatch : headingMatches lvl heading (Block.heading lvl (rt heading)) = true := by
    simp [headingMatches, hinv]
  have hloc1 : locateHeadingAux lvl heading (page.take 100) = none :=
    (locateAux_eq_none_iff lvl heading _).mpr
      (fun b hb => Bool.eq_false_iff.mpr
        (List.countP_eq_zero.mp hzero b (List.take_subset 100 page hb)))
  have hp1 : notion_append_section page heading hl c1 detect =
      (insertAfter (page ++ [Block.heading lvl (rt heading)])
        ((page ++ [Block.heading lvl (rt heading)]).length - 1)
        (bodyOrEmpty detect c1), true) := by
    unfold notion_append_section
    rw [← hlvl, hloc1]
  have hp1' : (notion_append_section page heading hl c1 detect).1 =
      page ++ Block.heading lvl (rt heading) :: bodyOrEmpty detect c1 := by
    rw [hp1]
    show insertAfter (page ++ [Block.heading lvl (rt heading)])
        ((page ++ [Block.heading lvl (rt heading)]).length - 1)
        (bodyOrEmpty detect c1) = _
    unfold insertAfter
    have hl1 : (page ++ [Block.heading lvl (rt heading)]).length - 1 + 1 =
        (page ++ [Block.heading lvl (rt heading)]).length := by
      simp [List.length_append]
    rw [hl1, List.take_length, List.drop_length]
    simp
  have hcount1 : countMatchingHeadings
      (notion_append_section page heading hl c1 detect).1 lvl heading = 1 := by
    rw [hp1']
    unfold countMatchingHeadings
    rw [List.countP_append, List.countP_cons]
    have hz : page.countP (headingMatches lvl heading) = 0 := hzero
    rw [hz, hbody c1, hmatch]
    simp
  set P1 := (notion_append_section page heading hl c1 detect).1 with hP1
  have hmem : Block.heading lvl (rt heading) ∈ P1.take 100 := by
    rw [hp1', List.take_append_eq_append_take]
    refine List.mem_append.mpr (Or.inr ?_)
    have h100 : 100 - page.length = (100 - page.length - 1) + 1 := by omega
    rw [h100, List.take_succ_cons]
    exact List.mem_cons_self _ _
  obtain ⟨i, hi⟩ : ∃ i, locateHeadingAux lvl heading (P1.take 100) = some i := by
    cases hl2 : locateHeadingAux lvl heading (P1.take 100) with
    | some j => exact ⟨j, rfl⟩
    | none =>
        exfalso
        have hf := (locateAux_eq_none_iff lvl heading _).mp hl2 _ hmem
        rw [hmatch] at hf
        cases hf
  refine ⟨hcount1, ?_, ?_⟩
  · show (notion_append_section P1 heading hl c2 detect).2 = false
    unfold notion_append_section
    rw [← hlvl, hi]
  · show countMatchingHeadings
        (notion_append_section P1 heading hl c2 detect).1 lvl heading = 1
    unfold notion_append_section
    rw [← hlvl, hi]
    show (insertAfter P1 i (bodyOrEmpty detect c2)).countP
        (headingMatches lvl heading) = 1
    rw [countP_insertAfter, hbody c2]
    unfold countMatchingHeadings at hcount1
    omega

theorem claim_C9_idempotent_witness :
    countMatchingHeadings
      (notion_append_section [] (("Draft").toList) (some 2)
        (("first body").toList) true).1
      (clampHeadingLevel (some 2)) (("Draft").toList) = 1 ∧
    (notion_append_section
      (notion_append_section [] (("Draft").toList) (some 2)
        (("first body").toList) true).1
      (("Draft").toList) (some 2) (("second body").toList) true).2 = false ∧
    countMatchingHeadings
      (notion_append_section
        (notion_append_section [] (("Draft").toList) (some 2)
          (("first body").toList) true).1
        (("Draft").toList) (some 2) (("second body").toList) true).1
      (clampHeadingLevel (some 2)) (("Draft").toList) = 1 :=
  claim_C9_idempotent [] (("Draft").toList) (some 2)
    (("first body").toList) (("second body").toList) true rfl rfl (by decide)

end LocalMcp
